import Mathlib

/-!
Shallow embedding of the loan-app calculation engine (loanEngine.js and the
extended engine file with projections) together with proofs about its
recalculation, projection and payoff-estimation functions.

Numbers: JS numbers are modelled as exact rationals; `round2` follows the
source (`Math.round((n + Number.EPSILON) * 100) / 100`, with
`Math.round x = ⌊x + 1/2⌋`).

Dates: a valid date at UTC midnight is identified with its day number since
the Unix epoch (the JS timestamp divided by 86400000); an invalid (`NaN`)
date is `none` in `Option Int`.  The civil (proleptic-Gregorian) conversion
functions below implement exactly the arithmetic JS `Date.UTC` /
`toISOString` use.
-/

namespace LoanApp

set_option maxRecDepth 2000

/-- `Number.EPSILON` of JS, as an exact rational. -/
def numEpsilon : ℚ := 1 / 2 ^ 52

/-- `EPS = 1e-6` from the source. -/
def EPS : ℚ := 1 / 1000000

/-- `Math.round` of JS on a non-NaN value: half-up toward `+∞`. -/
def jsRound (q : ℚ) : ℤ := ⌊q + 1 / 2⌋

/-- `round2` from the source: `Math.round((n + Number.EPSILON) * 100) / 100`. -/
def round2 (n : ℚ) : ℚ := (jsRound ((n + numEpsilon) * 100) : ℚ) / 100

/-- A rational is a whole number of cents. -/
def IsCents (q : ℚ) : Prop := ∃ k : ℤ, q = (k : ℚ) / 100

instance (q : ℚ) : Decidable (IsCents q) := by
  unfold IsCents
  by_cases h : q * 100 = ((q * 100).num : ℚ)
  · exact .isTrue ⟨(q * 100).num, by rw [← h]; ring⟩
  · refine .isFalse ?_
    rintro ⟨k, rfl⟩
    apply h
    rw [div_mul_cancel₀]
    · norm_num
    · norm_num


/-! ## Calendar (proleptic Gregorian, as JS `Date.UTC` computes it) -/

/-- Leap year test (`y % 4 == 0 && (y % 100 != 0 || y % 400 == 0)`). -/
def isLeap (y : ℤ) : Bool := y % 4 == 0 && (y % 100 != 0 || y % 400 == 0)

/-- Number of days in month `m` (1–12) of year `y`. -/
def daysInMonth (y m : ℤ) : ℤ :=
  if m = 2 then (if isLeap y then 29 else 28)
  else if m = 4 ∨ m = 6 ∨ m = 9 ∨ m = 11 then 30
  else 31

/-- Day number since the Unix epoch of civil date `(y, m, d)`, `m ∈ [1,12]`
(linear in `d`, exactly as the JS time value is). -/
def daysFromCivil (y m d : ℤ) : ℤ :=
  let y' := if m ≤ 2 then y - 1 else y
  let era := Int.fdiv y' 400
  let yoe := y' - era * 400
  let mp := if 2 < m then m - 3 else m + 9
  let doy := Int.ediv (153 * mp + 2) 5 + d - 1
  let doe := yoe * 365 + Int.ediv yoe 4 - Int.ediv yoe 100 + doy
  era * 146097 + doe - 719468

/-- Civil date `(y, m, d)` of a day number since the Unix epoch. -/
def civilFromDays (z : ℤ) : ℤ × ℤ × ℤ :=
  let z' := z + 719468
  let era := Int.fdiv z' 146097
  let doe := z' - era * 146097
  let yoe := Int.ediv (doe - Int.ediv doe 1460 + Int.ediv doe 36524 - Int.ediv doe 146096) 365
  let y := yoe + era * 400
  let doy := doe - (365 * yoe + Int.ediv yoe 4 - Int.ediv yoe 100)
  let mp := Int.ediv (5 * doy + 2) 153
  let d := doy - Int.ediv (153 * mp + 2) 5 + 1
  let m := if mp < 10 then mp + 3 else mp - 9
  (if m ≤ 2 then y + 1 else y, m, d)

/-- `Date.UTC(y, mIdx, d)` (0-based month index, arbitrary overflow in both
`mIdx` and `d`), as a day number. -/
def jsUTC (y mIdx d : ℤ) : ℤ :=
  let ym := y * 12 + mIdx
  daysFromCivil (Int.ediv ym 12) (Int.emod ym 12 + 1) 1 + (d - 1)

/-- `addDays` on valid dates: day numbers just shift. -/
def addDays (z : ℤ) (n : ℤ) : ℤ := z + n

/-- `daysBetween` of the source on valid dates:
`Math.max(0, Math.round((t2 - t1)/86400000))`. -/
def daysBetween (z1 z2 : ℤ) : ℤ := max 0 (z2 - z1)

/-- `addMonths` of `loanEngine.js`:
`Date.UTC(y, m + months, d)` — day-of-month overflow rolls into the next
month. -/
def addMonthsRoll (z : ℤ) (months : ℤ) : ℤ :=
  let c := civilFromDays z
  jsUTC c.1 (c.2.1 - 1 + months) c.2.2

/-- `addMonths` of the extended engine file: target month first-of-month,
then the day clamped to the target month's length (`endOfTarget`). -/
def addMonthsClamp (z : ℤ) (months : ℤ) : ℤ :=
  let c := civilFromDays z
  let ym := c.1 * 12 + (c.2.1 - 1 + months)
  let ty := Int.ediv ym 12
  let tm := Int.emod ym 12 + 1
  jsUTC ty (tm - 1) (min c.2.2 (daysInMonth ty tm))

/-- `addYears` (`Date.UTC(y + years, m, d)`, so Feb 29 may roll to Mar 1). -/
def addYears (z : ℤ) (years : ℤ) : ℤ :=
  let c := civilFromDays z
  jsUTC (c.1 + years) (c.2.1 - 1) c.2.2

/-- `monthsBetween`: whole-month grid difference, ignoring days. -/
def monthsBetween (z1 z2 : ℤ) : ℤ :=
  let a := civilFromDays z1
  let b := civilFromDays z2
  (b.1 - a.1) * 12 + (b.2.1 - a.2.1)

/-- Left-pad the decimal representation of a nonnegative integer to `w` digits. -/
def padNum (w : ℕ) (n : ℤ) : String :=
  let s := toString n.toNat
  if s.length < w then String.mk (List.replicate (w - s.length) '0') ++ s else s

/-- ISO `YYYY-MM-DD` rendering of a valid date (as `toISOString().slice(0,10)`
produces for years 0–9999; expanded-year formats outside that range). -/
def toISODate (z : ℤ) : String :=
  let c := civilFromDays z
  let ystr :=
    if c.1 < 0 then "-" ++ padNum 6 (-c.1)
    else if 9999 < c.1 then "+" ++ padNum 6 c.1
    else padNum 4 c.1
  ystr ++ "-" ++ padNum 2 c.2.1 ++ "-" ++ padNum 2 c.2.2

/-- `toISODate` on a possibly-NaN date (`''` for NaN). -/
def toISODateOpt : Option ℤ → String
  | none => ""
  | some z => toISODate z


/-! ## Data model -/

/-- `PaymentFrequency` values; any other string falls back to 12 periods/year,
which is `Monthly`'s value, so `Monthly` covers the fallback. -/
inductive Freq
  | Monthly | Biweekly | Weekly | Quarterly | Annual
deriving DecidableEq, Repr

/-- `FREQ` table / `periodsPerYear`. -/
def periodsPerYear : Freq → ℚ
  | .Monthly => 12
  | .Biweekly => 26
  | .Weekly => 52
  | .Quarterly => 4
  | .Annual => 1

/-- `LoanType` strings; `Other` stands for any string that is none of the
recognized types. -/
inductive LType
  | Mortgage | CarLoan | PersonalLoan | RevolvingLOC | CreditCard | Other
deriving DecidableEq, Repr

/-- Loan record.  Date fields hold the `parseISO` result: `none` is the NaN
sentinel.  `NextPaymentDate` is guarded by JS truthiness before parsing, so it
is doubly optional: `none` = absent/empty string, `some none` = present but
unparseable, `some (some z)` = valid. -/
structure Loan where
  id : ℤ
  OriginalPrincipal : ℚ := 0
  APR : ℚ := 0
  TermMonths : ℤ := 0
  PaymentFrequency : Freq := .Monthly
  LoanType : LType := .Mortgage
  OriginationDate : Option ℤ := none
  NextPaymentDate : Option (Option ℤ) := none
  GraceDays : ℤ := 0
  EscrowMonthly : ℚ := 0
  FixedPayment : Bool := false
deriving DecidableEq, Repr

/-- Payment record.  `PaymentDate` is a valid date (the data model stores ISO
`YYYY-MM-DD` strings).  `typeTag` models the presence and value of the
engine's internal `_type` property on the JS object (`none` = property
absent). -/
structure Payment where
  id : ℤ
  LoanRef : ℤ
  PaymentDate : ℤ
  Amount : ℚ := 0
  IsScheduledInstallment : Bool := true
  InterestPortion : Option ℚ := none
  PrincipalPortion : Option ℚ := none
  EscrowPortion : Option ℚ := none
  typeTag : Option String := none
deriving DecidableEq, Repr

/-- Draw record. -/
structure Draw where
  id : ℤ
  LoanRef : ℤ
  DrawDate : ℤ
  Amount : ℚ := 0
deriving DecidableEq, Repr

/-! ## Amortization math -/

/-- `amortizedPayment(P, apr, nPeriods, ppy)`. -/
def amortizedPayment (P apr : ℚ) (nPeriods : ℤ) (ppy : ℚ) : ℚ :=
  if nPeriods ≤ 0 then 0
  else
    let r := apr / ppy
    if |r| < EPS then round2 (P / (nPeriods : ℚ))
    else
      let pw : ℚ := (1 + r) ^ nPeriods.toNat
      round2 (max 0 (P * (r * pw) / (pw - 1)))

/-- `fixedPIForLoan(loan)`: level P&I payment from original principal and
term. -/
def fixedPIForLoan (loan : Loan) : ℚ :=
  let ppy := periodsPerYear loan.PaymentFrequency
  let n := max 1 (jsRound ((loan.TermMonths : ℚ) * ppy / 12))
  amortizedPayment loan.OriginalPrincipal loan.APR n ppy

/-! ## Ledger recalculation engine (`recalcLoanPayments`) -/

/-- Merged event stream element.  The source tags each record with
`_type: 'payment' | 'draw'`; the constructor is that tag. -/
inductive Ev
  | pay (p : Payment)
  | draw (d : Draw)
deriving DecidableEq, Repr

/-- `parseISO(ev.PaymentDate || ev.DrawDate)`. -/
def Ev.date : Ev → ℤ
  | .pay p => p.PaymentDate
  | .draw d => d.DrawDate

/-- Stable insertion by date: the new element goes before the first
strictly-later element, after any equal-dated ones already present. -/
def insertEv (e : Ev) : List Ev → List Ev
  | [] => [e]
  | x :: xs => if e.date ≤ x.date then e :: x :: xs else x :: insertEv e xs

/-- The source sorts with `Array.prototype.sort` and a date comparator;
since ES2019 that sort is stable, which this insertion sort models. -/
def sortEvents : List Ev → List Ev
  | [] => []
  | e :: es => insertEv e (sortEvents es)

/-- Per-loan constants read by the replay loop. -/
structure RCtx where
  apr : ℚ
  grace : ℤ
  scheduledPI : ℚ
deriving DecidableEq, Repr

/-- Mutable replay state of `recalcLoanPayments`.  Date-valued fields are
`Option ℤ` because the period anchors can be NaN when the loan's anchor dates
are unparseable; every comparison against them is then false, as in JS. -/
structure RState where
  balance : ℚ
  due : Option ℤ
  periodStart : Option ℤ
  periodInterest : ℚ
  interestOutstanding : ℚ
  periodAccrued : Bool
  principalPaidThisPeriod : ℚ
  periodSatisfied : Bool
  lastEventDate : Option ℤ
deriving DecidableEq, Repr

/-- JS `a >= b` on dates where either side may be NaN (then false). -/
def dGe (a b : Option ℤ) : Bool :=
  match a, b with
  | some a, some b => b ≤ a
  | _, _ => false

/-- JS `a > b` on dates where either side may be NaN (then false). -/
def dGt (a b : Option ℤ) : Bool :=
  match a, b with
  | some a, some b => b < a
  | _, _ => false

/-- The `while (periodSatisfied && evDate >= due)` advance.  The loop body
unconditionally clears `periodSatisfied`, so it executes at most once; it is
therefore embedded as a conditional single step. -/
def advanceIfDue (ctx : RCtx) (s : RState) (evDate : ℤ) : RState :=
  if s.periodSatisfied && dGe (some evDate) s.due then
    let periodInterest := round2 (s.balance * ctx.apr / 12)
    { balance := s.balance
      due := s.due.map (fun d => addMonthsRoll d 1)
      periodStart := s.due
      periodInterest := periodInterest
      interestOutstanding := periodInterest
      periodAccrued := true
      principalPaidThisPeriod := 0
      periodSatisfied := false
      lastEventDate := s.due }
  else s

/-- `ensurePeriodInterest` (never fires in practice: `periodAccrued` is set at
initialization and at every period advance and is never cleared, but it is
kept for fidelity). -/
def ensurePeriodInterest (s : RState) : RState :=
  if !s.periodAccrued then
    { s with interestOutstanding := round2 (s.interestOutstanding + s.periodInterest)
             periodAccrued := true }
  else s

/-- Late per-diem interest added to `interestOutstanding` for a payment at
`evDate`: only while the period is unsatisfied and the event is strictly past
`due + grace`, for the late days beyond both the grace boundary and the last
charged event.  Returns the `round2`-ed charge (0 when nothing accrues). -/
def lateCharge (ctx : RCtx) (s : RState) (evDate : ℤ) : ℚ :=
  if s.periodSatisfied then 0
  else
    match s.due with
    | none => 0
    | some due =>
      let graceDate := addDays due ctx.grace
      if graceDate < evDate then
        let lateFrom : ℤ :=
          match s.lastEventDate with
          | some l => if graceDate < l then l else graceDate
          | none => graceDate
        let lateDays := daysBetween lateFrom evDate
        if 0 < lateDays then round2 (s.balance * ctx.apr / 360 * (lateDays : ℚ)) else 0
      else 0

/-- Application of the late-interest block to the state. -/
def applyLate (ctx : RCtx) (s : RState) (evDate : ℤ) : RState :=
  let c := lateCharge ctx s evDate
  if c = 0 then s
  else { s with interestOutstanding := round2 (s.interestOutstanding + c) }

/-- The record pushed onto `updatedPayments` for a payment event:
`{...ev, InterestPortion, PrincipalPortion}` where `ev = {...p, _type: 'payment'}`. -/
def setPortions (p : Payment) (a b : ℚ) : Payment :=
  { p with InterestPortion := some a
           PrincipalPortion := some b
           typeTag := some "payment" }

/-- One event of the replay loop.  Emits the updated payment record (with
`InterestPortion`, `PrincipalPortion` and the leaked `_type` marker) for
payment events, nothing for draws. -/
def stepEv (ctx : RCtx) (s0 : RState) (ev : Ev) : RState × Option Payment :=
  let evDate := ev.date
  let s1 := advanceIfDue ctx s0 evDate
  match ev with
  | .pay p =>
    let payAmt := p.Amount
    let isPrincipalOnlyExtra := !p.IsScheduledInstallment
    let s2 := if !isPrincipalOnlyExtra then ensurePeriodInterest s1 else s1
    let s3 := applyLate ctx s2 evDate
    let ipp : ℚ × ℚ × RState :=
      if isPrincipalOnlyExtra then
        (0, min payAmt s3.balance, s3)
      else
        let interestPaid := min payAmt s3.interestOutstanding
        let io' := round2 (s3.interestOutstanding - interestPaid)
        let remaining := max 0 (round2 (payAmt - interestPaid))
        (interestPaid, min remaining s3.balance, { s3 with interestOutstanding := io' })
    let interestPaid := ipp.1
    let principalPaid := ipp.2.1
    let s4 := ipp.2.2
    let balance' := round2 (max 0 (s4.balance - principalPaid))
    let ppp := round2 (s4.principalPaidThisPeriod + principalPaid)
    let requiredPrincipal := max 0 (ctx.scheduledPI - s4.periodInterest)
    let satisfied :=
      if !s4.periodSatisfied ∧ s4.interestOutstanding ≤ EPS ∧ requiredPrincipal ≤ ppp + EPS
      then true else s4.periodSatisfied
    let upd := setPortions p (round2 interestPaid) (round2 principalPaid)
    ({ s4 with balance := balance'
               principalPaidThisPeriod := ppp
               periodSatisfied := satisfied
               lastEventDate := some evDate }, some upd)
  | .draw d =>
    ({ s1 with balance := round2 (s1.balance + d.Amount)
               lastEventDate := some evDate }, none)

/-- The replay loop over the sorted events, accumulating updated payments. -/
def runEvents (ctx : RCtx) (s : RState) : List Ev → RState × List Payment
  | [] => (s, [])
  | e :: es =>
    let r1 := stepEv ctx s e
    let r2 := runEvents ctx r1.1 es
    (r2.1, match r1.2 with | some x => x :: r2.2 | none => r2.2)

/-- The due-date anchor: `NextPaymentDate` if truthy, otherwise one month
(rolling) after `OriginationDate`. -/
def dueAnchor (loan : Loan) : Option ℤ :=
  match loan.NextPaymentDate with
  | some d => d
  | none => loan.OriginationDate.map (fun d => addMonthsRoll d 1)

/-- Initial replay state of `recalcLoanPayments`. -/
def initialRState (loan : Loan) : RState :=
  let due := dueAnchor loan
  let periodStart := due.map (fun d => addMonthsRoll d (-1))
  let periodInterest := round2 (loan.OriginalPrincipal * loan.APR / 12)
  { balance := loan.OriginalPrincipal
    due := due
    periodStart := periodStart
    periodInterest := periodInterest
    interestOutstanding := periodInterest
    periodAccrued := true
    principalPaidThisPeriod := 0
    periodSatisfied := false
    lastEventDate := periodStart }

/-- Context constants of `recalcLoanPayments`. -/
def loanCtx (loan : Loan) : RCtx :=
  { apr := loan.APR, grace := max 0 loan.GraceDays, scheduledPI := fixedPIForLoan loan }

/-- The merged, date-sorted event stream for one loan. -/
def eventsOf (loan : Loan) (allPayments : List Payment) (allDraws : List Draw) : List Ev :=
  let pay := (allPayments.filter (fun p => p.LoanRef == loan.id)).map Ev.pay
  let draws := (allDraws.filter (fun d => d.LoanRef == loan.id)).map Ev.draw
  sortEvents (pay ++ draws)

/-- The final merge of `recalcLoanPayments`: a payment whose id is in the
`updatedIds` set is replaced by `updatedPayments.find(x => x.id === p.id)`,
every other payment passes through. -/
def mergeBack (updatedPayments : List Payment) (p : Payment) : Payment :=
  if (updatedPayments.map (·.id)).contains p.id then
    (updatedPayments.find? (fun x => x.id == p.id)).getD p
  else p

/-- The `updatedPayments` accumulator of one `recalcLoanPayments` run. -/
def recalcUpdated (loan : Loan) (allPayments : List Payment) (allDraws : List Draw) :
    List Payment :=
  (runEvents (loanCtx loan) (initialRState loan) (eventsOf loan allPayments allDraws)).2

/-- `recalcLoanPayments(loan, allPayments, allDraws)`. -/
def recalcLoanPayments (loan : Loan) (allPayments : List Payment)
    (allDraws : List Draw := []) : List Payment :=
  allPayments.map (mergeBack (recalcUpdated loan allPayments allDraws))

/-! ## Payoff date estimator (`computePayoffDate`) -/

/-- `countScheduledPayments`. -/
def countScheduledPayments (payments : List Payment) (loanId : ℤ) : ℤ :=
  ((payments.filter (fun p => p.LoanRef == loanId && p.IsScheduledInstallment)).length : ℤ)

/-- The bounded (≤ 2000 iterations) simulation counting periods needed to
amortize `balRun` at payment `pi`. -/
def neededLoop (apr pi : ℚ) : ℕ → ℤ → ℚ → ℤ
  | 0, needed, _ => needed
  | fuel + 1, needed, balRun =>
    let interest := round2 (balRun * apr / 12)
    let principal := max 0 (round2 (pi - interest))
    let needed' := needed + 1
    if principal ≤ 0 then needed'
    else if balRun ≤ round2 principal then needed'
    else neededLoop apr pi fuel needed' (round2 (balRun - principal))

/-- `computePayoffDate(loan, balanceStart, nextDueDate, allPayments)`:
`none` models the JS `null` return; a returned string may be `""` when the
anchor dates are NaN (`toISODate` of an invalid date). -/
def computePayoffDate (loan : Loan) (balanceStart : ℚ)
    (nextDueDate : Option (Option ℤ) := none) (allPayments : List Payment := []) :
    Option String :=
  let bal := round2 balanceStart
  if bal ≤ 0 then none
  else
    let apr := loan.APR
    let pi := fixedPIForLoan loan
    let firstDue : Option ℤ := dueAnchor loan
    let scheduledCountDone := countScheduledPayments allPayments loan.id
    let nextDueAdjusted := firstDue.map (fun d => addMonthsRoll d scheduledCountDone)
    let remainingScheduled := max 1 (loan.TermMonths - scheduledCountDone)
    let needed := neededLoop apr pi 2000 0 bal
    let finalPeriods :=
      if |needed - remainingScheduled| ≤ 1 then remainingScheduled else max 1 needed
    some (toISODateOpt (nextDueAdjusted.map (fun d => addMonthsRoll d (finalPeriods - 1))))

/-! ## Helper lemmas: event sort -/
/-- Events of a given date, in stream order. -/
def dateFilter (d : ℤ) (l : List Ev) : List Ev := l.filter (fun e => e.date == d)

/-- Fixture: a plain 1000-balance, 6%-APR loan due at day 20000. -/
def gLoan : Loan :=
  { id := 1
    OriginalPrincipal := 1000
    APR := 0.06
    TermMonths := 12
    GraceDays := 10
    NextPaymentDate := some (some 20000) }

/-- Fixture: a tiny loan for which the one-day late per-diem rounds to 0. -/
def tinyLoan : Loan :=
  { id := 1
    OriginalPrincipal := 1
    APR := 0.01
    TermMonths := 12
    GraceDays := 0
    NextPaymentDate := some (some 19800) }

/-- Apply a payment-record transformation to an event stream element. -/
def mapEv (f : Payment → Payment) : Ev → Ev
  | .pay p => .pay (f p)
  | .draw d => .draw d

/-! ## What-if projection engine (extended engine file) -/

/-- JS `a > b` on possibly-NaN dates. -/
def dGtOpt (a b : Option ℤ) : Bool := dGt a b

/-- JS `a < b` on possibly-NaN dates. -/
def dLtOpt (a b : Option ℤ) : Bool := dGt b a

/-- JS `a <= b` on possibly-NaN dates. -/
def dLeOpt (a b : Option ℤ) : Bool := dGe b a

/-- `ExtraPaymentRule.every` values; `other` stands for any unrecognized
string (truthy, so it does not fall back to `'month'`, and none of the
stepping branches advance the date). -/
inductive Every
  | day | week | month | year | other
deriving DecidableEq, Repr

/-- `ExtraPaymentRule`: one-time (`once = true`, uses `date`) or recurring
(`every`/`start`).  Date string fields are doubly optional like
`NextPaymentDate`. -/
structure ExtraRule where
  once : Bool := false
  amount : ℚ := 0
  date : Option (Option ℤ) := none
  every : Option Every := none
  start : Option (Option ℤ) := none
deriving DecidableEq, Repr

/-- The date→amount map built by `expandExtrasMap`, keyed by the possibly-NaN
date (`none` plays the role of the `''` key that `toISODate` gives NaN). -/
def ExtrasMap := List (Option ℤ × ℚ)

/-- `Map.get`. -/
def mapGet (m : ExtrasMap) (k : Option ℤ) : Option ℚ :=
  (m.find? (fun e => e.1 == k)).map (·.2)

/-- `Map.set` (replace an existing binding or append a new one). -/
def mapSet (m : ExtrasMap) (k : Option ℤ) (v : ℚ) : ExtrasMap :=
  match m with
  | [] => [(k, v)]
  | e :: es => if e.1 == k then (k, v) :: es else e :: mapSet es k v

/-- `EXTRA_FREQ[every] || 12`, the per-year iteration bound of a recurring
rule. -/
def everyFreq : Every → ℕ
  | .day => 365
  | .week => 52
  | .month => 12
  | .year => 1
  | .other => 12

/-- One recurrence step of `when` (an unrecognized `every` never advances). -/
def stepEvery : Every → Option ℤ → Option ℤ
  | .day, w => w.map (fun z => addDays z 1)
  | .week, w => w.map (fun z => addDays z 7)
  | .month, w => w.map (fun z => addMonthsClamp z 1)
  | .year, w => w.map (fun z => addYears z 1)
  | .other, w => w

/-- The 'once' branch of `expandExtrasMap`: align to the start anchor's
due-date grid by whole-month offset (clamped at 0) and add the rounded
amount when the aligned date is inside `[startDate, end]`. -/
def expandOnce (startDate endD : Option ℤ) (amount : ℚ) (dateField : Option (Option ℤ))
    (m : ExtrasMap) : ExtrasMap :=
  let parsed : Option ℤ := match dateField with | some d => d | none => startDate
  match parsed with
  | none => m
  | some pd =>
    let aligned : Option ℤ :=
      match startDate with
      | some sd => some (addMonthsClamp sd (max 0 (monthsBetween sd pd)))
      | none => none
    if dGe aligned startDate && dLeOpt aligned endD then
      mapSet m aligned (round2 ((mapGet m aligned).getD 0 + round2 amount))
    else m

/-- The bounded recurrence loop of `expandExtrasMap`. -/
def expandRecLoop (endD : Option ℤ) (amount : ℚ) (every : Every) :
    ℕ → Option ℤ → ExtrasMap → ExtrasMap
  | 0, _, m => m
  | fuel + 1, when, m =>
    if dGtOpt when endD then m
    else expandRecLoop endD amount every fuel (stepEvery every when)
      (mapSet m when (round2 ((mapGet m when).getD 0 + round2 amount)))

/-- One rule of the `extras.forEach` body of `expandExtrasMap`. -/
def expandRule (startDate endD : Option ℤ) (maxYears : ℕ) (m : ExtrasMap)
    (r : ExtraRule) : ExtrasMap :=
  if ¬ (0 < r.amount) then m
  else if r.once then expandOnce startDate endD r.amount r.date m
  else
    let every := r.every.getD .month
    let w0 : Option ℤ := match r.start with | some d => d | none => startDate
    let w1 : Option ℤ := match w0 with | none => startDate | some z => some z
    let w2 := if dLtOpt w1 startDate then startDate else w1
    let w3 :=
      if every = .month ∨ every = .year then
        match startDate, w2 with
        | some sd, some w => some (addMonthsClamp sd (max 0 (monthsBetween sd w)))
        | _, _ => none
      else w2
    expandRecLoop endD r.amount every (everyFreq every * maxYears) w3 m

/-- `expandExtrasMap(extras, startDate, maxYears = 100)`. -/
def expandExtrasMap (extras : List ExtraRule) (startDate : Option ℤ)
    (maxYears : ℕ := 100) : ExtrasMap :=
  let endD : Option ℤ := startDate.map (fun z => addYears z (maxYears : ℤ))
  extras.foldl (expandRule startDate endD maxYears) []

/-- A row of the period-level what-if timeline. -/
structure ProjRow where
  date : String
  payment : ℚ
  interest : ℚ
  principal : ℚ
  balance : ℚ
  paid : ℚ
  interestPaid : ℚ
  principalPaid : ℚ
deriving DecidableEq, Repr

/-- Loop accumulator/result: rows plus the running balance and totals. -/
structure ProjAcc where
  rows : List ProjRow
  bal : ℚ
  totPaid : ℚ
  totInt : ℚ
  totPrin : ℚ
deriving DecidableEq, Repr

/-- The row the projection loop emits for one period. -/
def projRowOf (apr pi : ℚ) (em : ExtrasMap) (date : Option ℤ)
    (bal totPaid totInt totPrin : ℚ) : ProjRow :=
  let extraForDate := (mapGet em date).getD 0
  let interest := round2 (bal * apr / 12)
  let principal := min bal (max 0 (round2 (pi - interest)))
  let extraPrincipal := min (max 0 (bal - principal)) extraForDate
  let payment := round2 (principal + interest + extraPrincipal)
  { date := toISODateOpt date
    payment := payment
    interest := interest
    principal := round2 (principal + extraPrincipal)
    balance := round2 (max 0 (bal - principal - extraPrincipal))
    paid := round2 (totPaid + payment)
    interestPaid := round2 (totInt + interest)
    principalPaid := round2 (totPrin + principal + extraPrincipal) }

/-- The bounded period loop of `projectWithExtras` (`fuel` is the iteration
ceiling; the loop breaks as soon as the balance reaches `EPS`). -/
def projLoop (apr pi : ℚ) (em : ExtrasMap) :
    ℕ → Option ℤ → ℚ → ℚ → ℚ → ℚ → ProjAcc
  | 0, _, bal, totPaid, totInt, totPrin => ⟨[], bal, totPaid, totInt, totPrin⟩
  | fuel + 1, date, bal, totPaid, totInt, totPrin =>
    let row := projRowOf apr pi em date bal totPaid totInt totPrin
    if row.balance ≤ EPS then ⟨[row], row.balance, row.paid, row.interestPaid, row.principalPaid⟩
    else
      let rest := projLoop apr pi em fuel (date.map (fun z => addMonthsClamp z 1))
        row.balance row.paid row.interestPaid row.principalPaid
      ⟨row :: rest.rows, rest.bal, rest.totPaid, rest.totInt, rest.totPrin⟩

/-- Result of a projection call (`totals` flattened into three fields; the
source's `schedule` field is the same list as `timeline` and is omitted). -/
structure ProjResult where
  timeline : List ProjRow
  payoffDate : Option String
  totalPaid : ℚ
  totalInterest : ℚ
  totalPrincipal : ℚ
  balanceEnd : ℚ
deriving DecidableEq, Repr

/-- The due anchor with the extended engine's clamping `addMonths`. -/
def dueAnchorClamp (loan : Loan) : Option ℤ :=
  match loan.NextPaymentDate with
  | some d => d
  | none => loan.OriginationDate.map (fun z => addMonthsClamp z 1)

/-- The iteration ceiling `Math.max(remainingScheduled + 120, 2400)`. -/
def projCap (loan : Loan) (scheduledDone : ℤ) : ℕ :=
  (max (max 1 (loan.TermMonths - scheduledDone) + 120) 2400).toNat

/-- The projection's first scheduled date: the next-due anchor advanced by the
already-posted scheduled count. -/
def projStart (loan : Loan) (nextDueDate : Option (Option ℤ)) (scheduledDone : ℤ) :
    Option ℤ :=
  (match nextDueDate with
    | some d => d
    | none => dueAnchorClamp loan).map (fun z => addMonthsClamp z scheduledDone)

/-- `projectWithExtras({loan, balanceStart, nextDueDate, extras, scheduledDone})`. -/
def projectWithExtras (loan : Loan) (balanceStart : ℚ)
    (nextDueDate : Option (Option ℤ) := none) (extras : List ExtraRule := [])
    (scheduledDone : ℤ := 0) : ProjResult :=
  let bal := round2 balanceStart
  if bal ≤ 0 then ⟨[], none, 0, 0, 0, 0⟩
  else
    let start := projStart loan nextDueDate scheduledDone
    let extrasMap := expandExtrasMap extras start 100
    let r := projLoop loan.APR (fixedPIForLoan loan) extrasMap (projCap loan scheduledDone)
      start bal 0 0 0
    { timeline := r.rows
      payoffDate := r.rows.getLast?.map (·.date)
      totalPaid := r.totPaid
      totalInterest := r.totInt
      totalPrincipal := r.totPrin
      balanceEnd := r.bal }

/-! ## Event-level projection (`projectToPayoff` of the interactive mock)

Dates here are valid day numbers: the callers pass `new Date()` or stored ISO
dates, and extra-payment rules with unparseable dates (whose NaN poisons the
JS simulation's arithmetic) are outside this embedding's domain. -/

/-- `isAmortizedType`. -/
def isAmortizedType : LType → Bool
  | .Mortgage => true
  | .CarLoan => true
  | .PersonalLoan => true
  | _ => false

/-- `nextByFreq` (with the clamping `addMonths` the mock imports). -/
def nextByFreq (freq : Freq) (z : ℤ) : ℤ :=
  match freq with
  | .Weekly => addDays z 7
  | .Biweekly => addDays z 14
  | .Monthly => addMonthsClamp z 1
  | .Quarterly => addMonthsClamp z 3
  | .Annual => addYears z 1

/-- Integer periods-per-year. -/
def ppyNat : Freq → ℕ
  | .Monthly => 12
  | .Biweekly => 26
  | .Weekly => 52
  | .Quarterly => 4
  | .Annual => 1

/-- Event kinds of the event-level projection. -/
inductive PKind
  | draw | extra | base
deriving DecidableEq, Repr

/-- An event of the event-level projection. -/
structure PEvent where
  kind : PKind
  date : ℤ
  amount : ℚ := 0
deriving DecidableEq, Repr

/-- Base-schedule event generation (`for` loop with `if (date > endDate) break`). -/
def baseEventsLoop (freq : Freq) (endDate : ℤ) : ℕ → ℤ → List PEvent
  | 0, _ => []
  | fuel + 1, date =>
    if endDate < date then []
    else ⟨.base, date, 0⟩ :: baseEventsLoop freq endDate fuel (nextByFreq freq date)

/-- Recurring-extra event generation for the event-level projection. -/
def extraEventsLoop (every : Every) (endDate : ℤ) (amount : ℚ) : ℕ → ℤ → List PEvent
  | 0, _ => []
  | fuel + 1, when =>
    if endDate < when then []
    else ⟨.extra, when, round2 amount⟩ ::
      extraEventsLoop every endDate amount fuel
        ((stepEvery every (some when)).getD when)

/-- The sort comparator `a.date - b.date || (draw ? -1 : extra ? 0 : 1)` read
as "`a` strictly precedes `b`" (`c(a,b) < 0`). -/
def ptBefore (a b : PEvent) : Bool :=
  if a.date ≠ b.date then a.date < b.date else a.kind == .draw

/-- Stable insertion by the comparator. -/
def insertPE (e : PEvent) : List PEvent → List PEvent
  | [] => [e]
  | x :: xs => if ptBefore e x then e :: x :: xs else x :: insertPE e xs

/-- Stable sort of the event list. -/
def sortPE : List PEvent → List PEvent
  | [] => []
  | e :: es => insertPE e (sortPE es)

/-- The same-day grouping (`while` loop collecting following non-draw events
of the same ISO date). -/
def sameDayTake (d : ℤ) : List PEvent → List PEvent × List PEvent
  | [] => ([], [])
  | e :: es =>
    if e.date == d && e.kind != .draw then
      let r := sameDayTake d es
      (e :: r.1, r.2)
    else ([], e :: es)

/-- A row of the event-level timeline. -/
structure PTRow where
  date : String
  balance : ℚ
  paid : ℚ
  interestPaid : ℚ
  principalPaid : ℚ
deriving DecidableEq, Repr

/-- Result of `projectToPayoff`. -/
structure PTResult where
  timeline : List PTRow
  payoffDate : Option String
  totalPaid : ℚ
  totalInterest : ℚ
  totalPrincipal : ℚ
  balanceEnd : ℚ
deriving DecidableEq, Repr

/-- The same-day base-payment amount for one base event, computed from the
current (post-accrual) balance. -/
def basePaymentOf (loan : Loan) (amortized : Bool) (fixedBasePI escrowPerPeriod bal : ℚ) : ℚ :=
  let ppy := periodsPerYear loan.PaymentFrequency
  if amortized then round2 (fixedBasePI + escrowPerPeriod)
  else if loan.LoanType = .RevolvingLOC then
    round2 (round2 (loan.APR / ppy * bal) + escrowPerPeriod)
  else if loan.LoanType = .CreditCard then
    let monthlyMin := max (round2 (bal * 0.02)) 25
    round2 ((monthlyMin * 12) / ppy + escrowPerPeriod)
  else
    let nPeriods := max 1 (jsRound ((loan.TermMonths : ℚ) * ppy / 12))
    round2 (amortizedPayment bal loan.APR nPeriods ppy + escrowPerPeriod)

/-- The event-iteration loop of `projectToPayoff` (fuel starts at the event
count; every iteration consumes at least one event). -/
def ptLoop (loan : Loan) (amortized : Bool) (fixedBasePI escrowPerPeriod : ℚ) :
    ℕ → List PEvent → ℤ → ℚ → ℚ → ℚ → ℚ → List PTRow × ℚ × ℚ × ℚ × ℚ
  | 0, _, _, bal, totPaid, totInt, totPrin => ([], bal, totPaid, totInt, totPrin)
  | _, [], _, bal, totPaid, totInt, totPrin => ([], bal, totPaid, totInt, totPrin)
  | fuel + 1, ev :: rest, lastDate, bal, totPaid, totInt, totPrin =>
    let days := daysBetween lastDate ev.date
    let interestAccrued := round2 (bal * loan.APR / 365 * (days : ℚ))
    let bal1 := round2 (bal + interestAccrued)
    if ev.kind = .draw then
      let bal2 := round2 (bal1 + ev.amount)
      let row : PTRow := ⟨toISODate ev.date, bal2, round2 totPaid, round2 totInt, round2 totPrin⟩
      if bal2 ≤ 0 then ([row], bal2, totPaid, totInt, totPrin)
      else
        let r := ptLoop loan amortized fixedBasePI escrowPerPeriod fuel rest ev.date bal2
          totPaid totInt totPrin
        (row :: r.1, r.2)
    else
      let grpRest := sameDayTake ev.date rest
      let sameDayEvents := ev :: grpRest.1
      let basePayment := sameDayEvents.foldl (fun acc e =>
        if e.kind = .base then
          acc + basePaymentOf loan amortized fixedBasePI escrowPerPeriod bal1
        else acc) 0
      let extrasTotal := sameDayEvents.foldl (fun acc e =>
        if e.kind = .extra then acc + round2 e.amount else acc) 0
      let interestFromBase := min basePayment interestAccrued
      let basePrincipal := max 0 (round2 (basePayment - interestFromBase))
      let extrasPrincipal := round2 extrasTotal
      let totInt' := round2 (totInt + interestFromBase)
      let totPrin' := round2 (totPrin + basePrincipal + extrasPrincipal)
      let totPaid' := round2 (totPaid + basePayment + extrasPrincipal)
      let bal2 := round2 (max 0 (bal1 - basePrincipal - extrasPrincipal))
      let row : PTRow := ⟨toISODate ev.date, bal2, round2 totPaid', round2 totInt', round2 totPrin'⟩
      if bal2 ≤ 0 then ([row], bal2, totPaid', totInt', totPrin')
      else
        let r := ptLoop loan amortized fixedBasePI escrowPerPeriod fuel grpRest.2 ev.date bal2
          totPaid' totInt' totPrin'
        (row :: r.1, r.2)

/-- The `remainingPeriods` computation of `projectToPayoff`. -/
def ptRemainingPeriods (loan : Loan) (startDate : ℤ) : Option ℤ :=
  let ppy := periodsPerYear loan.PaymentFrequency
  if loan.TermMonths ≠ 0 then
    match loan.OriginationDate with
    | some orig =>
      let oc := civilFromDays orig
      let sc := civilFromDays startDate
      let monthsElapsed := (sc.1 - oc.1) * 12 + (sc.2.1 - oc.2.1) +
        (if sc.2.2 < oc.2.2 then -1 else 0)
      let monthsRemaining := max 0 (loan.TermMonths - monthsElapsed)
      some (max 0 (jsRound ((monthsRemaining : ℚ) * ppy / 12)))
    | none => none
  else none

/-- The `fixedBasePI` computation of `projectToPayoff`. -/
def ptFixedBasePI (loan : Loan) (balanceStart : ℚ) (startDate : ℤ) : ℚ :=
  let ppy := periodsPerYear loan.PaymentFrequency
  let amortized := isAmortizedType loan.LoanType
  let usesFixedPayment := loan.FixedPayment || amortized
  let origPeriods := max 1 (jsRound ((loan.TermMonths : ℚ) * ppy / 12))
  if usesFixedPayment then
    if 0 < loan.TermMonths then
      amortizedPayment loan.OriginalPrincipal loan.APR origPeriods ppy
    else
      let n := match ptRemainingPeriods loan startDate with
        | some rp => if 0 < rp then rp else origPeriods
        | none => origPeriods
      amortizedPayment balanceStart loan.APR n ppy
  else 0

/-- The sorted event stream (base + draw + extra events) of `projectToPayoff`. -/
def ptEvents (loan : Loan) (startDate : ℤ) (extras : List ExtraRule)
    (draws : List Draw) (maxYears : ℕ) : List PEvent :=
  let freq := loan.PaymentFrequency
  let endDate := addYears startDate (maxYears : ℤ)
  let periodsToProject : ℕ :=
    match ptRemainingPeriods loan startDate with
    | some rp => if 0 < rp then rp.toNat else ppyNat freq * maxYears
    | none => ppyNat freq * maxYears
  let baseEvents := baseEventsLoop freq endDate periodsToProject (nextByFreq freq startDate)
  let drawEvents := (draws.filter (fun d => d.LoanRef == loan.id)).filterMap (fun d =>
    if startDate < d.DrawDate then some ⟨.draw, d.DrawDate, round2 d.Amount⟩ else none)
  let extraEvents := extras.foldl (fun acc r =>
    if ¬ (0 < r.amount) then acc
    else if r.once then
      match (match r.date with | some d => d | none => some startDate) with
      | some w => if startDate < w then acc ++ [⟨.extra, w, round2 r.amount⟩] else acc
      | none => acc
    else
      let every := r.every.getD .month
      let w0 : ℤ := match r.start with
        | some (some z) => z
        | _ => startDate
      let w1 := if w0 < startDate then startDate else w0
      acc ++ extraEventsLoop every endDate r.amount (everyFreq every * maxYears) w1) []
  sortPE (baseEvents ++ drawEvents ++ extraEvents)

/-- Assembly of the `projectToPayoff` result from the event stream. -/
def ptAssemble (loan : Loan) (amortized : Bool) (fixedBasePI escrowPerPeriod : ℚ)
    (events : List PEvent) (startDate : ℤ) (balanceStart : ℚ) : PTResult :=
  let r := ptLoop loan amortized fixedBasePI escrowPerPeriod events.length events startDate
    (balanceStart) 0 0 0
  { timeline := r.1
    payoffDate := r.1.getLast?.map (·.date)
    totalPaid := round2 r.2.2.1
    totalInterest := round2 r.2.2.2.1
    totalPrincipal := round2 r.2.2.2.2
    balanceEnd := round2 r.2.1 }

/-- `projectToPayoff({loan, balanceStart, startDate, extras, draws, maxYears})`. -/
def projectToPayoff (loan : Loan) (balanceStart : ℚ) (startDate : ℤ)
    (extras : List ExtraRule := []) (draws : List Draw := []) (maxYears : ℕ := 100) :
    PTResult :=
  ptAssemble loan (isAmortizedType loan.LoanType)
    (ptFixedBasePI loan balanceStart startDate)
    (round2 ((loan.EscrowMonthly * 12) / periodsPerYear loan.PaymentFrequency))
    (ptEvents loan startDate extras draws maxYears) startDate balanceStart

/-- Fixture: a loan whose fixed PI is 0 (zero original principal) with a
positive APR, so a positive balance never amortizes — the projection hits its
iteration ceiling. -/
def rwLoan : Loan :=
  { id := 30
    OriginalPrincipal := 0
    APR := 0.12
    TermMonths := 0
    NextPaymentDate := some (some (daysFromCivil 2024 1 1)) }

/-- Fixture: a high-APR credit card whose minimum payment stays below the
accrued interest. -/
def ccLoan : Loan :=
  { id := 20
    OriginalPrincipal := 10000
    APR := 0.30
    OriginationDate := some (daysFromCivil 2024 1 15)
    PaymentFrequency := .Monthly
    LoanType := .CreditCard
    TermMonths := 2 }

/-! ## Theorems -/

theorem round2_isCents (n : ℚ) : IsCents (round2 n) := ⟨jsRound ((n + numEpsilon) * 100), rfl⟩

theorem jsRound_mono : Monotone jsRound := by
  intro a b hab
  exact Int.floor_le_floor (by linarith)

theorem round2_mono : Monotone round2 := by
  intro a b hab
  unfold round2
  have := jsRound_mono (a := (a + numEpsilon) * 100) (b := (b + numEpsilon) * 100)
    (by nlinarith)
  exact div_le_div_of_nonneg_right (by exact_mod_cast this) (by norm_num)

theorem round2_cents_fix {q : ℚ} (h : IsCents q) : round2 q = q := by
  obtain ⟨k, rfl⟩ := h
  unfold round2 jsRound numEpsilon
  have : ((k : ℚ) / 100 + 1 / 2 ^ 52) * 100 + 1 / 2 = (k : ℚ) + (100 / 2 ^ 52 + 1 / 2) := by
    ring
  rw [this]
  have hc : ⌊(100 / 2 ^ 52 + 1 / 2 : ℚ)⌋ = 0 := by
    rw [Int.floor_eq_zero_iff, Set.mem_Ico]
    constructor <;> norm_num
  have hf : ⌊(k : ℚ) + (100 / 2 ^ 52 + 1 / 2)⌋ = k := by
    rw [add_comm, Int.floor_add_int, hc, zero_add]
  rw [hf]

theorem round2_add_cents {q : ℚ} {k : ℤ} :
    round2 (q + (k : ℚ) / 100) = round2 q + (k : ℚ) / 100 := by
  unfold round2 jsRound
  have : (q + (k : ℚ) / 100 + numEpsilon) * 100 + 1 / 2
      = ((q + numEpsilon) * 100 + 1 / 2) + (k : ℚ) := by ring
  rw [this, Int.floor_add_int]
  push_cast
  ring

theorem round2_nonneg {q : ℚ} (h : 0 ≤ q) : 0 ≤ round2 q := by
  have h0 : round2 0 = 0 := round2_cents_fix ⟨0, by norm_num⟩
  have := round2_mono h
  rw [h0] at this
  exact this

/-- Cents values below `EPS` in absolute value are zero. -/
theorem cents_le_EPS {q : ℚ} (hc : IsCents q) (h0 : 0 ≤ q) (h : q ≤ EPS) : q = 0 := by
  obtain ⟨k, rfl⟩ := hc
  have hk0 : (0 : ℚ) ≤ (k : ℚ) := by
    by_contra hneg
    push_neg at hneg
    nlinarith
  have hklt : (k : ℚ) < 1 := by
    unfold EPS at h
    nlinarith
  have : k = 0 := by
    have h1 : (0 : ℤ) ≤ k := by exact_mod_cast hk0
    have h2 : k < 1 := by exact_mod_cast hklt
    omega
  simp [this]

theorem cents_pos {q : ℚ} (hc : IsCents q) (h : 0 < q) : 1 / 100 ≤ q := by
  obtain ⟨k, rfl⟩ := hc
  have : (0 : ℚ) < (k : ℚ) := by nlinarith
  have hk : (1 : ℤ) ≤ k := by exact_mod_cast this
  have : (1 : ℚ) ≤ (k : ℚ) := by exact_mod_cast hk
  nlinarith

theorem isCents_add {a b : ℚ} (ha : IsCents a) (hb : IsCents b) : IsCents (a + b) := by
  obtain ⟨j, rfl⟩ := ha
  obtain ⟨k, rfl⟩ := hb
  exact ⟨j + k, by push_cast; ring⟩

theorem isCents_sub {a b : ℚ} (ha : IsCents a) (hb : IsCents b) : IsCents (a - b) := by
  obtain ⟨j, rfl⟩ := ha
  obtain ⟨k, rfl⟩ := hb
  exact ⟨j - k, by push_cast; ring⟩

theorem isCents_min {a b : ℚ} (ha : IsCents a) (hb : IsCents b) : IsCents (min a b) := by
  rcases min_choice a b with h | h <;> rw [h] <;> assumption

theorem isCents_max {a b : ℚ} (ha : IsCents a) (hb : IsCents b) : IsCents (max a b) := by
  rcases max_choice a b with h | h <;> rw [h] <;> assumption

theorem isCents_zero : IsCents 0 := ⟨0, by norm_num⟩

example : civilFromDays 0 = (1970, 1, 1) := by decide
example : daysFromCivil 1970 1 1 = 0 := by decide
example : civilFromDays (daysFromCivil 2024 2 29) = (2024, 2, 29) := by decide
example : civilFromDays (daysFromCivil 2023 3 1 - 1) = (2023, 2, 28) := by decide
example : addMonthsRoll (daysFromCivil 2024 1 31) 1 = daysFromCivil 2024 3 2 := by decide
example : addMonthsClamp (daysFromCivil 2024 1 31) 1 = daysFromCivil 2024 2 29 := by decide
example : addYears (daysFromCivil 2024 2 29) 1 = daysFromCivil 2025 3 1 := by decide
example : toISODate (daysFromCivil 2024 3 15) = "2024-03-15" := by decide


theorem mem_insertEv {a e : Ev} {l : List Ev} : a ∈ insertEv e l ↔ a = e ∨ a ∈ l := by
  induction l with
  | nil => simp [insertEv]
  | cons x xs ih =>
    unfold insertEv
    split_ifs with h
    · simp [or_assoc]
    · simp only [List.mem_cons, ih]
      tauto

theorem mem_sortEvents {a : Ev} {l : List Ev} : a ∈ sortEvents l ↔ a ∈ l := by
  induction l with
  | nil => simp [sortEvents]
  | cons x xs ih => simp [sortEvents, mem_insertEv, ih]

theorem dateFilter_cons (d : ℤ) (x : Ev) (l : List Ev) :
    dateFilter d (x :: l) = if x.date = d then x :: dateFilter d l else dateFilter d l := by
  by_cases h : x.date = d <;> simp [dateFilter, List.filter_cons, h]

theorem dateFilter_insertEv (d : ℤ) (e : Ev) (l : List Ev) :
    dateFilter d (insertEv e l) =
      if e.date = d then e :: dateFilter d l else dateFilter d l := by
  induction l with
  | nil =>
    rw [show insertEv e [] = [e] from rfl, dateFilter_cons]
  | cons x xs ih =>
    unfold insertEv
    by_cases hcmp : e.date ≤ x.date
    · rw [if_pos hcmp]
      exact dateFilter_cons d e (x :: xs)
    · rw [if_neg hcmp]
      have hx : x.date < e.date := lt_of_not_le hcmp
      rw [dateFilter_cons d x (insertEv e xs), ih, dateFilter_cons d x xs]
      by_cases hed : e.date = d
      · have hxd : ¬ x.date = d := by omega
        simp [hed, hxd]
      · by_cases hxd : x.date = d <;> simp [hed, hxd]

theorem dateFilter_sortEvents (d : ℤ) (l : List Ev) :
    dateFilter d (sortEvents l) = dateFilter d l := by
  induction l with
  | nil => rfl
  | cons x xs ih =>
    show dateFilter d (insertEv x (sortEvents xs)) = _
    rw [dateFilter_insertEv, ih, dateFilter_cons]

/-- C9: same-day ties in the replay stream keep original collection order:
restricted to any single calendar date, the sorted event stream of
`recalcLoanPayments` equals the unsorted concatenation (this loan's payments
in collection order, then its draws in collection order). -/
theorem C9_same_day_original_order (loan : Loan) (P : List Payment) (D : List Draw) (d : ℤ) :
    dateFilter d (eventsOf loan P D) =
      dateFilter d ((P.filter (fun p => p.LoanRef == loan.id)).map Ev.pay
        ++ (D.filter (fun x => x.LoanRef == loan.id)).map Ev.draw) := by
  unfold eventsOf
  exact dateFilter_sortEvents d _

/-- C10: `computePayoffDate` returns `null` exactly for a non-positive
(rounded) starting balance; with a positive balance it always returns a date
string, the empty string when the loan's due/origination anchors are
unparseable. -/
theorem C10_payoff_null_iff (loan : Loan) (bal : ℚ) (nd : Option (Option ℤ))
    (ps : List Payment) :
    (computePayoffDate loan bal nd ps = none ↔ round2 bal ≤ 0) ∧
    (dueAnchor loan = none → ¬ round2 bal ≤ 0 →
      computePayoffDate loan bal nd ps = some "") := by
  constructor
  · by_cases h : round2 bal ≤ 0 <;> simp [computePayoffDate, h]
  · intro hanchor h
    simp [computePayoffDate, h, hanchor, toISODateOpt]

/-- Witness for C10 at a loan with unparseable anchors and balance 1. -/
theorem C10_payoff_null_iff_witness :
    computePayoffDate { id := 1, OriginationDate := none, NextPaymentDate := some none } 1
      none [] = some "" :=
  (C10_payoff_null_iff { id := 1, OriginationDate := none, NextPaymentDate := some none }
      1 none []).2 (by decide)
    (by rw [round2_cents_fix ⟨100, by norm_num⟩]; norm_num)

/-! ## C6: grace boundary -/

/-- C6 (amended): in the replay loop's late-interest rule, a payment dated
exactly on `due + GraceDays` accrues zero late interest; a payment `k ≥ 1`
days later (with no intervening event past the boundary) accrues
`round2(balance * APR / 360 * k)`, which is positive whenever the one-day
per-diem `balance * APR / 360` is at least half a cent — but rounds to zero
for small `balance * APR`. -/
theorem C6_grace_boundary (ctx : RCtx) (s : RState) (due : ℤ)
    (hdue : s.due = some due) (hsat : s.periodSatisfied = false)
    (hlast : ∀ l, s.lastEventDate = some l → l ≤ addDays due ctx.grace) :
    lateCharge ctx s (addDays due ctx.grace) = 0 ∧
    (∀ k : ℤ, 1 ≤ k →
      lateCharge ctx s (addDays due (ctx.grace + k)) =
        round2 (s.balance * ctx.apr / 360 * (k : ℚ))) ∧
    (1 / 200 ≤ s.balance * ctx.apr / 360 →
      0 < lateCharge ctx s (addDays due (ctx.grace + 1))) := by
  have hcharge : ∀ k : ℤ, 1 ≤ k →
      lateCharge ctx s (addDays due (ctx.grace + k)) =
        round2 (s.balance * ctx.apr / 360 * (k : ℚ)) := by
    intro k hk
    unfold lateCharge
    rw [hsat, hdue]
    simp only [Bool.false_eq_true, if_false]
    have hgt : addDays due ctx.grace < addDays due (ctx.grace + k) := by
      unfold addDays; omega
    rw [if_pos hgt]
    have hfrom :
        (match s.lastEventDate with
          | some l => if addDays due ctx.grace < l then l else addDays due ctx.grace
          | none => addDays due ctx.grace) = addDays due ctx.grace := by
      cases hle : s.lastEventDate with
      | none => rfl
      | some l =>
        have := hlast l hle
        simp only []
        rw [if_neg (by omega)]
    rw [hfrom]
    have hdays : daysBetween (addDays due ctx.grace) (addDays due (ctx.grace + k)) = k := by
      unfold daysBetween addDays; omega
    rw [hdays, if_pos (by omega)]
  refine ⟨?_, hcharge, ?_⟩
  · unfold lateCharge
    rw [hsat, hdue]
    simp only [Bool.false_eq_true, if_false]
    rw [if_neg (by unfold addDays; omega)]
  · intro hpd
    rw [hcharge 1 le_rfl]
    have h1 : round2 (1 / 200) ≤ round2 (s.balance * ctx.apr / 360 * ((1 : ℤ) : ℚ)) := by
      apply round2_mono
      push_cast
      linarith
    have h2 : round2 (1 / 200) = 1 / 100 := by
      unfold round2 jsRound numEpsilon
      rw [show ((1:ℚ)/200 + 1/2^52) * 100 + 1/2 = ((1:ℤ):ℚ) + 100/2^52 by push_cast; ring]
      rw [add_comm, Int.floor_add_int,
        show ⌊(100/2^52 : ℚ)⌋ = 0 by
          rw [Int.floor_eq_zero_iff, Set.mem_Ico]; constructor <;> norm_num]
      norm_num
    calc (0 : ℚ) < 1 / 100 := by norm_num
    _ = round2 (1 / 200) := h2.symm
    _ ≤ _ := h1

/-- Witness for C6 at a concrete state one day past a 10-day grace window. -/
theorem C6_grace_boundary_witness :
    lateCharge (loanCtx gLoan) (initialRState gLoan)
      (addDays (addDays 20000 (loanCtx gLoan).grace) 1) =
      round2 (1000 * 0.06 / 360 * ((1 : ℤ) : ℚ)) := by
  have h := (C6_grace_boundary (loanCtx gLoan) (initialRState gLoan)
    20000 (by decide) (by decide) (by decide)).2.1 1 le_rfl
  simpa [addDays] using h

/-- Counterexample to C6 as stated: a loan with positive balance (1) and
positive APR (0.01) whose scheduled payment is one day past `due + GraceDays`
accrues zero late interest (the per-diem rounds to zero cents), and the
recalculated `InterestPortion` of that payment is 0, not positive. -/
theorem C6_counterexample :
    (0 : ℚ) < tinyLoan.OriginalPrincipal ∧ (0 : ℚ) < tinyLoan.APR ∧
    lateCharge (loanCtx tinyLoan) (initialRState tinyLoan)
      (addDays (addDays 19800 tinyLoan.GraceDays) 1) = 0 ∧
    (recalcLoanPayments tinyLoan
        [{ id := 1, LoanRef := 1, PaymentDate := 19801, Amount := 100 }]
        []).map (·.InterestPortion) = [some 0] := by
  refine ⟨by norm_num [tinyLoan], by norm_num [tinyLoan], ?_, ?_⟩ <;> with_unfolding_all decide

/-! ## Shape of the replay output -/

theorem setPortions_id (p : Payment) (a b : ℚ) : (setPortions p a b).id = p.id := rfl

theorem setPortions_LoanRef (p : Payment) (a b : ℚ) :
    (setPortions p a b).LoanRef = p.LoanRef := rfl

theorem setPortions_PaymentDate (p : Payment) (a b : ℚ) :
    (setPortions p a b).PaymentDate = p.PaymentDate := rfl

theorem setPortions_Amount (p : Payment) (a b : ℚ) :
    (setPortions p a b).Amount = p.Amount := rfl

theorem setPortions_sched (p : Payment) (a b : ℚ) :
    (setPortions p a b).IsScheduledInstallment = p.IsScheduledInstallment := rfl

theorem setPortions_setPortions (p : Payment) (a b x y : ℚ) :
    setPortions (setPortions p a b) x y = setPortions p x y := rfl

theorem stepEv_pay_emit (ctx : RCtx) (s : RState) (p : Payment) :
    ∃ a b, (stepEv ctx s (.pay p)).2 = some (setPortions p a b) :=
  ⟨_, _, rfl⟩

theorem stepEv_draw_emit (ctx : RCtx) (s : RState) (d : Draw) :
    (stepEv ctx s (.draw d)).2 = none := rfl

/-- The replay step reads none of the derived fields of a payment: records
differing only in portions and the `_type` marker step identically. -/
theorem stepEv_absorb (ctx : RCtx) (s : RState) (p : Payment) (a b : ℚ) :
    stepEv ctx s (.pay (setPortions p a b)) = stepEv ctx s (.pay p) := by
  cases p
  rfl

theorem runEvents_cons (ctx : RCtx) (s : RState) (e : Ev) (es : List Ev) :
    runEvents ctx s (e :: es) =
      ((runEvents ctx (stepEv ctx s e).1 es).1,
        match (stepEv ctx s e).2 with
        | some x => x :: (runEvents ctx (stepEv ctx s e).1 es).2
        | none => (runEvents ctx (stepEv ctx s e).1 es).2) := rfl

theorem runEvents_emit_shape (ctx : RCtx) :
    ∀ (l : List Ev) (s : RState), ∀ u ∈ (runEvents ctx s l).2,
      ∃ p a b, Ev.pay p ∈ l ∧ u = setPortions p a b := by
  intro l
  induction l with
  | nil => intro s u hu; simp [runEvents] at hu
  | cons e es ih =>
    intro s u hu
    rw [runEvents_cons] at hu
    cases e with
    | pay p =>
      obtain ⟨a, b, hab⟩ := stepEv_pay_emit ctx s p
      rw [hab] at hu
      simp only [List.mem_cons] at hu
      rcases hu with rfl | hu
      · exact ⟨p, a, b, by simp, rfl⟩
      · obtain ⟨p', a', b', hm, he⟩ := ih _ u hu
        exact ⟨p', a', b', by simp [hm], he⟩
    | draw d =>
      rw [stepEv_draw_emit] at hu
      obtain ⟨p', a', b', hm, he⟩ := ih _ u hu
      exact ⟨p', a', b', by simp [hm], he⟩

theorem runEvents_emit_exists (ctx : RCtx) :
    ∀ (l : List Ev) (s : RState) (p : Payment), Ev.pay p ∈ l →
      ∃ u ∈ (runEvents ctx s l).2, u.id = p.id := by
  intro l
  induction l with
  | nil => intro s p hp; simp at hp
  | cons e es ih =>
    intro s p hp
    rw [runEvents_cons]
    rcases List.mem_cons.mp hp with rfl | hp'
    · obtain ⟨a, b, hab⟩ := stepEv_pay_emit ctx s p
      rw [hab]
      exact ⟨setPortions p a b, by simp, rfl⟩
    · obtain ⟨u, hu, hid⟩ := ih (stepEv ctx s e).1 p hp'
      refine ⟨u, ?_, hid⟩
      cases h2 : (stepEv ctx s e).2 <;> simp [h2, hu]

theorem runEvents_absorb (ctx : RCtx) (f : Payment → Payment) :
    ∀ (l : List Ev) (s : RState),
      (∀ p, Ev.pay p ∈ l → ∃ a b, f p = setPortions p a b) →
      runEvents ctx s (l.map (mapEv f)) = runEvents ctx s l := by
  intro l
  induction l with
  | nil => intro s _; rfl
  | cons e es ih =>
    intro s hf
    have htail : ∀ p, Ev.pay p ∈ es → ∃ a b, f p = setPortions p a b := by
      intro p hp; exact hf p (by simp [hp])
    cases e with
    | pay p =>
      obtain ⟨a, b, hfp⟩ := hf p (by simp)
      have hstep : stepEv ctx s (mapEv f (.pay p)) = stepEv ctx s (.pay p) := by
        show stepEv ctx s (.pay (f p)) = stepEv ctx s (.pay p)
        rw [hfp]
        exact stepEv_absorb ctx s p a b
      simp only [List.map_cons]
      rw [runEvents_cons, runEvents_cons, hstep, ih _ htail]
    | draw d =>
      simp only [List.map_cons]
      have hmap : mapEv f (Ev.draw d) = Ev.draw d := rfl
      rw [runEvents_cons, runEvents_cons, hmap, ih _ htail]

/-! ## Sort commutes with portion-only record maps -/

theorem insertEv_map (f : Payment → Payment) (e : Ev) (l : List Ev)
    (he : (mapEv f e).date = e.date) (hl : ∀ x ∈ l, (mapEv f x).date = x.date) :
    insertEv (mapEv f e) (l.map (mapEv f)) = (insertEv e l).map (mapEv f) := by
  induction l with
  | nil => simp [insertEv]
  | cons x xs ih =>
    have hx : (mapEv f x).date = x.date := hl x (by simp)
    have hxs : ∀ y ∈ xs, (mapEv f y).date = y.date := fun y hy => hl y (by simp [hy])
    simp only [List.map_cons]
    unfold insertEv
    rw [he, hx]
    by_cases hcmp : e.date ≤ x.date
    · rw [if_pos hcmp, if_pos hcmp]
      simp
    · rw [if_neg hcmp, if_neg hcmp]
      simp [ih hxs]

theorem sortEvents_map (f : Payment → Payment) :
    ∀ l : List Ev, (∀ x ∈ l, (mapEv f x).date = x.date) →
      sortEvents (l.map (mapEv f)) = (sortEvents l).map (mapEv f) := by
  intro l
  induction l with
  | nil => intro _; rfl
  | cons e es ih =>
    intro h
    simp only [List.map_cons]
    show insertEv (mapEv f e) (sortEvents (es.map (mapEv f))) = _
    rw [ih (fun x hx => h x (by simp [hx]))]
    rw [insertEv_map f e (sortEvents es) (h e (by simp))
      (fun x hx => h x (by simp [mem_sortEvents.mp hx]))]
    rfl

/-! ## Characterization of the merge -/

theorem recalcUpdated_shape (loan : Loan) (P : List Payment) (D : List Draw) :
    ∀ u ∈ recalcUpdated loan P D,
      ∃ p a b, p ∈ P ∧ p.LoanRef = loan.id ∧ u = setPortions p a b := by
  intro u hu
  obtain ⟨p, a, b, hmem, rfl⟩ := runEvents_emit_shape _ _ _ u hu
  unfold eventsOf at hmem
  rw [mem_sortEvents] at hmem
  rcases List.mem_append.mp hmem with h | h
  · obtain ⟨q, hq, hemk⟩ := List.mem_map.mp h
    obtain rfl : q = p := by cases hemk; rfl
    obtain ⟨hqP, hql⟩ := List.mem_filter.mp hq
    exact ⟨q, a, b, hqP, by simpa using hql, rfl⟩
  · obtain ⟨d, _, hemk⟩ := List.mem_map.mp h
    cases hemk

theorem pay_mem_eventsOf (loan : Loan) (P : List Payment) (D : List Draw) {p : Payment}
    (hp : p ∈ P) (hl : p.LoanRef = loan.id) : Ev.pay p ∈ eventsOf loan P D := by
  unfold eventsOf
  rw [mem_sortEvents]
  apply List.mem_append_left
  exact List.mem_map_of_mem _ (List.mem_filter.mpr ⟨hp, by simp [hl]⟩)

theorem recalcUpdated_exists (loan : Loan) (P : List Payment) (D : List Draw) {p : Payment}
    (hp : p ∈ P) (hl : p.LoanRef = loan.id) :
    ∃ u ∈ recalcUpdated loan P D, u.id = p.id :=
  runEvents_emit_exists _ _ _ p (pay_mem_eventsOf loan P D hp hl)

theorem mergeBack_found {ups : List Payment} {p u : Payment}
    (hfind : ups.find? (fun x => x.id == p.id) = some u) : mergeBack ups p = u := by
  unfold mergeBack
  have hmem : u ∈ ups := List.mem_of_find?_eq_some hfind
  have hid : u.id = p.id := by simpa using List.find?_some hfind
  rw [if_pos, hfind]
  · rfl
  · exact List.elem_iff.mpr (hid ▸ List.mem_map_of_mem (·.id) hmem)

/-- With globally unique payment ids, a target payment's merged output row is
its own updated record. -/
theorem mergeBack_target (loan : Loan) (P : List Payment) (D : List Draw)
    (hids : (P.map (·.id)).Nodup) {p : Payment} (hp : p ∈ P) (hl : p.LoanRef = loan.id) :
    ∃ a b, mergeBack (recalcUpdated loan P D) p = setPortions p a b ∧
      mergeBack (recalcUpdated loan P D) p ∈ recalcUpdated loan P D := by
  obtain ⟨u, hu, huid⟩ := recalcUpdated_exists loan P D hp hl
  have hsome : ((recalcUpdated loan P D).find? (fun x => x.id == p.id)).isSome := by
    rw [List.find?_isSome]
    exact ⟨u, hu, by simp [huid]⟩
  obtain ⟨v, hv⟩ := Option.isSome_iff_exists.mp hsome
  have hvmem : v ∈ recalcUpdated loan P D := List.mem_of_find?_eq_some hv
  have hvid : v.id = p.id := by simpa using List.find?_some hv
  obtain ⟨p', a, b, hp'P, hp'l, hveq⟩ := recalcUpdated_shape loan P D v hvmem
  have hpid : p'.id = p.id := by
    have : v.id = p'.id := by rw [hveq]; rfl
    omega
  obtain rfl : p' = p := List.inj_on_of_nodup_map hids hp'P hp hpid
  rw [mergeBack_found hv]
  exact ⟨a, b, hveq, hvmem⟩

/-- With globally unique payment ids, other loans' payments pass through the
merge untouched. -/
theorem mergeBack_nontarget (loan : Loan) (P : List Payment) (D : List Draw)
    (hids : (P.map (·.id)).Nodup) {p : Payment} (hp : p ∈ P) (hl : ¬ p.LoanRef = loan.id) :
    mergeBack (recalcUpdated loan P D) p = p := by
  unfold mergeBack
  rw [if_neg]
  intro hcontains
  have : p.id ∈ (recalcUpdated loan P D).map (·.id) := List.elem_iff.mp hcontains
  obtain ⟨u, hu, huid⟩ := List.mem_map.mp this
  obtain ⟨p', a, b, hp'P, hp'l, hueq⟩ := recalcUpdated_shape loan P D u hu
  have hpid : p'.id = p.id := by
    have : u.id = p'.id := by rw [hueq]; rfl
    omega
  obtain rfl : p' = p := List.inj_on_of_nodup_map hids hp'P hp hpid
  exact hl hp'l

theorem eventsOf_pay_elim {loan : Loan} {P : List Payment} {D : List Draw} {p : Payment}
    (hm : Ev.pay p ∈ eventsOf loan P D) : p ∈ P ∧ p.LoanRef = loan.id := by
  unfold eventsOf at hm
  rw [mem_sortEvents] at hm
  rcases List.mem_append.mp hm with h | h
  · obtain ⟨q, hq, hemk⟩ := List.mem_map.mp h
    obtain rfl : q = p := by cases hemk; rfl
    obtain ⟨hqP, hql⟩ := List.mem_filter.mp hq
    exact ⟨hqP, by simpa using hql⟩
  · obtain ⟨d, _, hemk⟩ := List.mem_map.mp h
    cases hemk

/-- C4 (amended): with unique payment ids, recalculation returns the full
collection pointwise: rows of other loans pass through identical to their
input record; rows of the target loan equal their input record with only
`InterestPortion`/`PrincipalPortion` overwritten (always populated) — plus
the engine's internal `_type: 'payment'` marker, which leaks onto the
output rows. -/
theorem C4_frame (loan : Loan) (P : List Payment) (D : List Draw)
    (hids : (P.map (·.id)).Nodup) :
    List.Forall₂ (fun p q =>
        (¬ p.LoanRef = loan.id → q = p) ∧
        (p.LoanRef = loan.id → ∃ a b : ℚ,
          q = { p with InterestPortion := some a
                       PrincipalPortion := some b
                       typeTag := some "payment" }))
      P (recalcLoanPayments loan P D) := by
  unfold recalcLoanPayments
  rw [List.forall₂_map_right_iff, List.forall₂_same]
  intro p hp
  constructor
  · intro h
    exact mergeBack_nontarget loan P D hids hp h
  · intro h
    obtain ⟨a, b, heq, _⟩ := mergeBack_target loan P D hids hp h
    exact ⟨a, b, heq⟩

/-- Fixture: loan and a single scheduled payment of another-field-free shape. -/
def frLoan : Loan :=
  { id := 5
    OriginalPrincipal := 1000
    APR := 0
    TermMonths := 10
    NextPaymentDate := some (some 20000) }

/-- Fixture payment for the frame counterexample. -/
def frPay : Payment := { id := 7, LoanRef := 5, PaymentDate := 20000, Amount := 100 }

/-- Counterexample to C4 as stated: the engine introduces an extra field.  On
a fresh input payment (no `_type` property) the output row carries
`_type: 'payment'`, so the output is not the input with only the two portion
fields overwritten. -/
theorem C4_counterexample :
    frPay.typeTag = none ∧
    (recalcLoanPayments frLoan [frPay] []).map (·.typeTag) = [some "payment"] ∧
    ¬ ∃ a b : ℚ, recalcLoanPayments frLoan [frPay] [] =
      [{ frPay with InterestPortion := some a, PrincipalPortion := some b }] := by
  refine ⟨rfl, by with_unfolding_all decide, ?_⟩
  rintro ⟨a, b, h⟩
  have h1 : (recalcLoanPayments frLoan [frPay] []).map (·.typeTag) = [some "payment"] := by
    with_unfolding_all decide
  rw [h] at h1
  simp [frPay] at h1

/-- Witness for C4 at the concrete fixture. -/
theorem C4_frame_witness :
    List.Forall₂ (fun p q =>
        (¬ p.LoanRef = frLoan.id → q = p) ∧
        (p.LoanRef = frLoan.id → ∃ a b : ℚ,
          q = { p with InterestPortion := some a
                       PrincipalPortion := some b
                       typeTag := some "payment" }))
      [frPay] (recalcLoanPayments frLoan [frPay] []) :=
  C4_frame frLoan [frPay] [] (by decide)

/-- Merging twice against the same updated list is the identity on the ledger
rows (with unique ids). -/
theorem mergeBack_idem (loan : Loan) (P : List Payment) (D : List Draw)
    (hids : (P.map (·.id)).Nodup) {p : Payment} (hp : p ∈ P) :
    mergeBack (recalcUpdated loan P D) (mergeBack (recalcUpdated loan P D) p) =
      mergeBack (recalcUpdated loan P D) p := by
  by_cases h : p.LoanRef = loan.id
  · obtain ⟨a, b, heq, hmem⟩ := mergeBack_target loan P D hids hp h
    have hqid : (mergeBack (recalcUpdated loan P D) p).id = p.id := by rw [heq]; rfl
    have hsome : ((recalcUpdated loan P D).find? (fun x => x.id == p.id)).isSome := by
      rw [List.find?_isSome]
      exact ⟨_, hmem, by simp [hqid]⟩
    obtain ⟨v, hv⟩ := Option.isSome_iff_exists.mp hsome
    have hFp : mergeBack (recalcUpdated loan P D) p = v := mergeBack_found hv
    have hpred : (fun x : Payment => x.id == (mergeBack (recalcUpdated loan P D) p).id)
        = (fun x : Payment => x.id == p.id) := by
      funext x
      rw [hqid]
    have hv' : (recalcUpdated loan P D).find?
        (fun x => x.id == (mergeBack (recalcUpdated loan P D) p).id) = some v := by
      rw [hpred]
      exact hv
    rw [mergeBack_found hv', ← hFp]
  · have h1 := mergeBack_nontarget loan P D hids hp h
    rw [h1, h1]

/-- C1: with unique payment ids, ledger recalculation is idempotent — running
the engine on its own output (same loan, same draws) reproduces the output
exactly, portions included. -/
theorem C1_recalc_idempotent (loan : Loan) (P : List Payment) (D : List Draw)
    (hids : (P.map (·.id)).Nodup) :
    recalcLoanPayments loan (recalcLoanPayments loan P D) D = recalcLoanPayments loan P D := by
  have hfilter : (P.map (mergeBack (recalcUpdated loan P D))).filter
        (fun p => p.LoanRef == loan.id)
      = (P.filter (fun p => p.LoanRef == loan.id)).map (mergeBack (recalcUpdated loan P D)) := by
    rw [List.filter_map]
    congr 1
    apply List.filter_congr
    intro p hp
    show ((mergeBack (recalcUpdated loan P D) p).LoanRef == loan.id) = (p.LoanRef == loan.id)
    by_cases h : p.LoanRef = loan.id
    · obtain ⟨a, b, heq, _⟩ := mergeBack_target loan P D hids hp h
      rw [heq]
      rfl
    · rw [mergeBack_nontarget loan P D hids hp h]
  have hevents : eventsOf loan (P.map (mergeBack (recalcUpdated loan P D))) D
      = (eventsOf loan P D).map (mapEv (mergeBack (recalcUpdated loan P D))) := by
    show sortEvents _ = _
    rw [hfilter]
    have h1 : ((P.filter (fun p => p.LoanRef == loan.id)).map
          (mergeBack (recalcUpdated loan P D))).map Ev.pay
        = ((P.filter (fun p => p.LoanRef == loan.id)).map Ev.pay).map
            (mapEv (mergeBack (recalcUpdated loan P D))) := by
      rw [List.map_map, List.map_map]
      rfl
    have h2 : (D.filter (fun x => x.LoanRef == loan.id)).map Ev.draw
        = ((D.filter (fun x => x.LoanRef == loan.id)).map Ev.draw).map
            (mapEv (mergeBack (recalcUpdated loan P D))) := by
      rw [List.map_map]
      rfl
    rw [h1, h2, ← List.map_append]
    apply sortEvents_map
    intro x hx
    rcases List.mem_append.mp hx with hx | hx
    · obtain ⟨q, hq, rfl⟩ := List.mem_map.mp hx
      obtain ⟨hqP, hql⟩ := List.mem_filter.mp hq
      by_cases h : q.LoanRef = loan.id
      · obtain ⟨a, b, heq, _⟩ := mergeBack_target loan P D hids hqP h
        show (Ev.pay (mergeBack (recalcUpdated loan P D) q)).date = _
        rw [heq]
        rfl
      · exact absurd (by simpa using hql) h
    · obtain ⟨d, _, rfl⟩ := List.mem_map.mp hx
      rfl
  have hUP : recalcUpdated loan (P.map (mergeBack (recalcUpdated loan P D))) D
      = recalcUpdated loan P D := by
    have hstep : recalcUpdated loan (P.map (mergeBack (recalcUpdated loan P D))) D
        = (runEvents (loanCtx loan) (initialRState loan)
            ((eventsOf loan P D).map (mapEv (mergeBack (recalcUpdated loan P D))))).2 := by
      show (runEvents (loanCtx loan) (initialRState loan)
          (eventsOf loan (P.map (mergeBack (recalcUpdated loan P D))) D)).2 = _
      rw [hevents]
    rw [hstep, runEvents_absorb]
    · rfl
    · intro p hp
      obtain ⟨hpP, hpl⟩ := eventsOf_pay_elim hp
      obtain ⟨a, b, heq, _⟩ := mergeBack_target loan P D hids hpP hpl
      exact ⟨a, b, heq⟩
  show (P.map (mergeBack (recalcUpdated loan P D))).map
      (mergeBack (recalcUpdated loan (P.map (mergeBack (recalcUpdated loan P D))) D))
    = P.map (mergeBack (recalcUpdated loan P D))
  rw [hUP, List.map_map]
  apply List.map_congr_left
  intro p hp
  exact mergeBack_idem loan P D hids hp

/-- Fixture loan for the idempotence witness. -/
def idLoan : Loan :=
  { id := 1
    OriginalPrincipal := 1000
    APR := 0.12
    TermMonths := 12
    GraceDays := 5
    NextPaymentDate := some (some 19760) }

/-- Fixture payments (two loans' rows mixed) for the idempotence witness. -/
def idPays : List Payment :=
  [ { id := 1, LoanRef := 1, PaymentDate := 19758, Amount := 88.85 },
    { id := 2, LoanRef := 1, PaymentDate := 19790, Amount := 50, IsScheduledInstallment := false },
    { id := 3, LoanRef := 2, PaymentDate := 19760, Amount := 10 } ]

/-- Fixture draws for the idempotence witness. -/
def idDraws : List Draw := [{ id := 1, LoanRef := 1, DrawDate := 19770, Amount := 200 }]

/-- Witness for C1 at a concrete three-payment, one-draw ledger. -/
theorem C1_recalc_idempotent_witness :
    recalcLoanPayments idLoan (recalcLoanPayments idLoan idPays idDraws) idDraws =
      recalcLoanPayments idLoan idPays idDraws :=
  C1_recalc_idempotent idLoan idPays idDraws (by decide)

/-! ## Conservation of payment allocation -/

theorem advanceIfDue_iOut_cents (ctx : RCtx) (s : RState) (evDate : ℤ)
    (h : IsCents s.interestOutstanding) :
    IsCents (advanceIfDue ctx s evDate).interestOutstanding := by
  unfold advanceIfDue
  split_ifs with hc
  · exact round2_isCents _
  · exact h

theorem ensurePeriodInterest_iOut_cents (s : RState) (h : IsCents s.interestOutstanding) :
    IsCents (ensurePeriodInterest s).interestOutstanding := by
  unfold ensurePeriodInterest
  split_ifs with hc
  · exact round2_isCents _
  · exact h

theorem applyLate_iOut_cents (ctx : RCtx) (s : RState) (evDate : ℤ)
    (h : IsCents s.interestOutstanding) :
    IsCents (applyLate ctx s evDate).interestOutstanding := by
  unfold applyLate
  by_cases hc : lateCharge ctx s evDate = 0
  · simpa [hc] using h
  · simpa [hc] using round2_isCents _

theorem applyLate_balance (ctx : RCtx) (s : RState) (evDate : ℤ) :
    (applyLate ctx s evDate).balance = s.balance := by
  unfold applyLate
  by_cases hc : lateCharge ctx s evDate = 0 <;> simp [hc]

theorem ensurePeriodInterest_balance (s : RState) :
    (ensurePeriodInterest s).balance = s.balance := by
  unfold ensurePeriodInterest
  split_ifs <;> rfl

theorem stepEv_iOut_cents (ctx : RCtx) (s : RState) (ev : Ev)
    (h : IsCents s.interestOutstanding) :
    IsCents (stepEv ctx s ev).1.interestOutstanding := by
  cases ev with
  | draw d =>
    show IsCents (advanceIfDue ctx s d.DrawDate).interestOutstanding
    exact advanceIfDue_iOut_cents ctx s _ h
  | pay p =>
    obtain ⟨pid, pref, pdate, pamt, psched, pip, ppp, pesc, ptag⟩ := p
    have h1 := advanceIfDue_iOut_cents ctx s pdate h
    cases psched with
    | false =>
      exact applyLate_iOut_cents ctx (advanceIfDue ctx s pdate) pdate h1
    | true =>
      have h2 := ensurePeriodInterest_iOut_cents _ h1
      have h3 := applyLate_iOut_cents ctx _ pdate h2
      exact round2_isCents _

/-- Per-payment conservation: the recorded portions of one payment event sum
to at most its amount (for whole-cent amounts), and an unscheduled payment
is attributed zero interest. -/
theorem stepEv_pay_portions (ctx : RCtx) (s : RState) (p : Payment)
    (hio : IsCents s.interestOutstanding) (hamt : IsCents p.Amount) :
    ∃ a b, (stepEv ctx s (.pay p)).2 = some (setPortions p a b) ∧
      a + b ≤ p.Amount ∧ (p.IsScheduledInstallment = false → a = 0) := by
  obtain ⟨pid, pref, pdate, pamt, psched, pip, ppp, pesc, ptag⟩ := p
  simp only [Payment.Amount] at hamt
  have h1 := advanceIfDue_iOut_cents ctx s pdate hio
  cases psched with
  | false =>
    refine ⟨_, _, rfl, ?_, fun _ => round2_cents_fix isCents_zero⟩
    show round2 0 + round2 (min pamt _) ≤ pamt
    rw [round2_cents_fix isCents_zero, zero_add]
    calc round2 (min pamt _) ≤ round2 pamt := round2_mono (min_le_left _ _)
    _ = pamt := round2_cents_fix hamt
  | true =>
    have h2 := ensurePeriodInterest_iOut_cents _ h1
    have h3 := applyLate_iOut_cents ctx _ pdate h2
    refine ⟨_, _, rfl, ?_, by simp⟩
    set O := (applyLate ctx (ensurePeriodInterest (advanceIfDue ctx s pdate))
      pdate).interestOutstanding with hO
    set B := (applyLate ctx (ensurePeriodInterest (advanceIfDue ctx s pdate))
      pdate).balance with hB
    show round2 (min pamt O) + round2 (min (max 0 (round2 (pamt - min pamt O))) B) ≤ pamt
    have hipc : IsCents (min pamt O) := isCents_min hamt h3
    have hremc : IsCents (pamt - min pamt O) := isCents_sub hamt hipc
    rw [round2_cents_fix hipc, round2_cents_fix hremc]
    have hb : round2 (min (max 0 (pamt - min pamt O)) B) ≤ max 0 (pamt - min pamt O) := by
      calc round2 (min (max 0 (pamt - min pamt O)) B)
          ≤ round2 (max 0 (pamt - min pamt O)) := round2_mono (min_le_left _ _)
      _ = max 0 (pamt - min pamt O) :=
          round2_cents_fix (isCents_max isCents_zero hremc)
    have hip_le : min pamt O ≤ pamt := min_le_left _ _
    have hkey : min pamt O + max 0 (pamt - min pamt O) = max (min pamt O) pamt := by
      rcases le_total 0 (pamt - min pamt O) with h | h
      · rw [max_eq_right h, max_eq_right hip_le]
        ring
      · rw [max_eq_left h, max_eq_left (by linarith)]
        ring
    have hmax : max (min pamt O) pamt = pamt := max_eq_right hip_le
    linarith [hb, hkey, hmax]

/-- Exact allocation for a scheduled installment that does not overpay: when
the amount is at most the outstanding interest plus the remaining balance (at
the state after period advance and late accrual), interest and principal
portions sum to exactly the amount. -/
theorem stepEv_pay_exact (ctx : RCtx) (s : RState) (p : Payment)
    (hs : p.IsScheduledInstallment = true)
    (hio : IsCents s.interestOutstanding) (hamt : IsCents p.Amount)
    (hbal : 0 ≤ (applyLate ctx (ensurePeriodInterest (advanceIfDue ctx s p.PaymentDate))
      p.PaymentDate).balance)
    (hcover : p.Amount ≤ (applyLate ctx (ensurePeriodInterest (advanceIfDue ctx s p.PaymentDate))
        p.PaymentDate).interestOutstanding +
      (applyLate ctx (ensurePeriodInterest (advanceIfDue ctx s p.PaymentDate))
        p.PaymentDate).balance) :
    ∃ a b, (stepEv ctx s (.pay p)).2 = some (setPortions p a b) ∧ a + b = p.Amount := by
  obtain ⟨pid, pref, pdate, pamt, psched, pip, ppp, pesc, ptag⟩ := p
  simp only [Payment.Amount] at hamt hcover
  simp only [Payment.PaymentDate] at hbal hcover
  simp only [Payment.IsScheduledInstallment] at hs
  subst hs
  have h1 := advanceIfDue_iOut_cents ctx s pdate hio
  have h2 := ensurePeriodInterest_iOut_cents _ h1
  have h3 := applyLate_iOut_cents ctx _ pdate h2
  refine ⟨_, _, rfl, ?_⟩
  set O := (applyLate ctx (ensurePeriodInterest (advanceIfDue ctx s pdate))
    pdate).interestOutstanding with hO
  set B := (applyLate ctx (ensurePeriodInterest (advanceIfDue ctx s pdate))
    pdate).balance with hB
  show round2 (min pamt O) + round2 (min (max 0 (round2 (pamt - min pamt O))) B) = pamt
  have hipc : IsCents (min pamt O) := isCents_min hamt h3
  have hremc : IsCents (pamt - min pamt O) := isCents_sub hamt hipc
  rw [round2_cents_fix hipc, round2_cents_fix hremc]
  rcases le_total pamt O with h | h
  · rw [min_eq_left h, sub_self, max_eq_right le_rfl]
    rw [min_eq_left hbal, round2_cents_fix isCents_zero, add_zero]
  · rw [min_eq_right h]
    have hge : 0 ≤ pamt - O := by linarith
    rw [max_eq_right hge]
    have hle : pamt - O ≤ B := by linarith
    rw [min_eq_left hle]
    have hc2 : IsCents (pamt - O) := isCents_sub hamt h3
    rw [round2_cents_fix hc2]
    ring

theorem runEvents_conservation (ctx : RCtx) :
    ∀ (l : List Ev) (s : RState), IsCents s.interestOutstanding →
      (∀ p, Ev.pay p ∈ l → IsCents p.Amount) →
      ∀ u ∈ (runEvents ctx s l).2,
        ∃ a b, u.InterestPortion = some a ∧ u.PrincipalPortion = some b ∧
          a + b ≤ u.Amount ∧ (u.IsScheduledInstallment = false → a = 0) := by
  intro l
  induction l with
  | nil => intro s _ _ u hu; simp [runEvents] at hu
  | cons e es ih =>
    intro s hio hl u hu
    rw [runEvents_cons] at hu
    have htail := fun p hp => hl p (List.mem_cons_of_mem _ hp)
    have hio' := stepEv_iOut_cents ctx s e hio
    cases e with
    | pay p =>
      obtain ⟨a, b, hab, hle, hz⟩ := stepEv_pay_portions ctx s p hio (hl p (by simp))
      rw [hab] at hu
      simp only [List.mem_cons] at hu
      rcases hu with rfl | hu
      · exact ⟨a, b, rfl, rfl, hle, hz⟩
      · exact ih _ hio' htail u hu
    | draw d =>
      rw [stepEv_draw_emit] at hu
      exact ih _ hio' htail u hu

/-- C2 (amended): with unique ids and whole-cent amounts, every recomputed
row of the target loan has populated portions with
`InterestPortion + PrincipalPortion ≤ Amount`, and an
unscheduled-principal-only payment has `InterestPortion = 0`; equality for a
scheduled installment holds when the payment does not overpay (its amount is
at most outstanding interest plus remaining balance at processing time), but
not in general. -/
theorem C2_conservation (loan : Loan) (P : List Payment) (D : List Draw)
    (hids : (P.map (·.id)).Nodup)
    (hcents : ∀ p ∈ P, p.LoanRef = loan.id → IsCents p.Amount) :
    (∀ q ∈ recalcLoanPayments loan P D, q.LoanRef = loan.id →
      ∃ a b, q.InterestPortion = some a ∧ q.PrincipalPortion = some b ∧
        a + b ≤ q.Amount ∧ (q.IsScheduledInstallment = false → a = 0)) ∧
    (∀ (s : RState) (p : Payment), p.IsScheduledInstallment = true →
      IsCents s.interestOutstanding → IsCents p.Amount →
      0 ≤ (applyLate (loanCtx loan) (ensurePeriodInterest
        (advanceIfDue (loanCtx loan) s p.PaymentDate)) p.PaymentDate).balance →
      p.Amount ≤ (applyLate (loanCtx loan) (ensurePeriodInterest
          (advanceIfDue (loanCtx loan) s p.PaymentDate)) p.PaymentDate).interestOutstanding +
        (applyLate (loanCtx loan) (ensurePeriodInterest
          (advanceIfDue (loanCtx loan) s p.PaymentDate)) p.PaymentDate).balance →
      ∃ a b, (stepEv (loanCtx loan) s (.pay p)).2 = some (setPortions p a b) ∧
        a + b = p.Amount) := by
  constructor
  · intro q hq hlq
    obtain ⟨p, hp, rfl⟩ := List.mem_map.mp hq
    by_cases h : p.LoanRef = loan.id
    · obtain ⟨a, b, heq, hmem⟩ := mergeBack_target loan P D hids hp h
      refine runEvents_conservation (loanCtx loan) (eventsOf loan P D) (initialRState loan)
        (round2_isCents _) ?_ _ hmem
      intro p' hp'
      obtain ⟨hp'P, hp'l⟩ := eventsOf_pay_elim hp'
      exact hcents p' hp'P hp'l
    · rw [mergeBack_nontarget loan P D hids hp h] at hlq
      exact absurd hlq h
  · intro s p hs hio hamt hbal hcover
    exact stepEv_pay_exact (loanCtx loan) s p hs hio hamt hbal hcover

/-- Witness for C2: the single recomputed row of the `frLoan` fixture. -/
theorem C2_conservation_witness :
    ∃ a b,
      (mergeBack (recalcUpdated frLoan [frPay] []) frPay).InterestPortion = some a ∧
      (mergeBack (recalcUpdated frLoan [frPay] []) frPay).PrincipalPortion = some b ∧
      a + b ≤ (mergeBack (recalcUpdated frLoan [frPay] []) frPay).Amount ∧
      ((mergeBack (recalcUpdated frLoan [frPay] []) frPay).IsScheduledInstallment = false →
        a = 0) :=
  (C2_conservation frLoan [frPay] [] (by decide)
      (by
        intro p hp _
        rw [List.mem_singleton] at hp
        subst hp
        exact ⟨10000, by norm_num [frPay]⟩)).1
    (mergeBack (recalcUpdated frLoan [frPay] []) frPay)
    (by
      show mergeBack (recalcUpdated frLoan [frPay] []) frPay ∈
        [frPay].map (mergeBack (recalcUpdated frLoan [frPay] []))
      exact List.mem_map_of_mem _ (by simp))
    (by with_unfolding_all decide)

/-- Fixture: an overpaying scheduled installment (amount 1000 against balance
100 at zero APR). -/
def ovLoan : Loan :=
  { id := 3
    OriginalPrincipal := 100
    APR := 0
    TermMonths := 10
    NextPaymentDate := some (some 20000) }

/-- Fixture payment for the overpayment counterexample. -/
def ovPay : Payment := { id := 1, LoanRef := 3, PaymentDate := 20000, Amount := 1000 }

/-- Counterexample to C2 as stated: a scheduled installment overpaying the
loan (amount 1000, zero APR, balance 100) gets portions 0 / 100, whose sum
100 is strictly below the amount — so equality does not hold for every
scheduled installment. -/
theorem C2_counterexample :
    ovPay.IsScheduledInstallment = true ∧
    (recalcLoanPayments ovLoan [ovPay] []).map (·.InterestPortion) = [some 0] ∧
    (recalcLoanPayments ovLoan [ovPay] []).map (·.PrincipalPortion) = [some 100] ∧
    (0 : ℚ) + 100 ≠ ovPay.Amount := by
  refine ⟨rfl, by with_unfolding_all decide, by with_unfolding_all decide,
    by norm_num [ovPay]⟩

/-! ## Projection loop: shape, ceiling, termination -/

theorem projLoop_succ (apr pi : ℚ) (em : ExtrasMap) (fuel : ℕ) (date : Option ℤ)
    (bal tp ti tpr : ℚ) :
    projLoop apr pi em (fuel + 1) date bal tp ti tpr =
      (if (projRowOf apr pi em date bal tp ti tpr).balance ≤ EPS then
        ⟨[projRowOf apr pi em date bal tp ti tpr],
          (projRowOf apr pi em date bal tp ti tpr).balance,
          (projRowOf apr pi em date bal tp ti tpr).paid,
          (projRowOf apr pi em date bal tp ti tpr).interestPaid,
          (projRowOf apr pi em date bal tp ti tpr).principalPaid⟩
      else
        ⟨projRowOf apr pi em date bal tp ti tpr ::
            (projLoop apr pi em fuel (date.map (fun z => addMonthsClamp z 1))
              (projRowOf apr pi em date bal tp ti tpr).balance
              (projRowOf apr pi em date bal tp ti tpr).paid
              (projRowOf apr pi em date bal tp ti tpr).interestPaid
              (projRowOf apr pi em date bal tp ti tpr).principalPaid).rows,
          (projLoop apr pi em fuel (date.map (fun z => addMonthsClamp z 1))
            (projRowOf apr pi em date bal tp ti tpr).balance
            (projRowOf apr pi em date bal tp ti tpr).paid
            (projRowOf apr pi em date bal tp ti tpr).interestPaid
            (projRowOf apr pi em date bal tp ti tpr).principalPaid).bal,
          (projLoop apr pi em fuel (date.map (fun z => addMonthsClamp z 1))
            (projRowOf apr pi em date bal tp ti tpr).balance
            (projRowOf apr pi em date bal tp ti tpr).paid
            (projRowOf apr pi em date bal tp ti tpr).interestPaid
            (projRowOf apr pi em date bal tp ti tpr).principalPaid).totPaid,
          (projLoop apr pi em fuel (date.map (fun z => addMonthsClamp z 1))
            (projRowOf apr pi em date bal tp ti tpr).balance
            (projRowOf apr pi em date bal tp ti tpr).paid
            (projRowOf apr pi em date bal tp ti tpr).interestPaid
            (projRowOf apr pi em date bal tp ti tpr).principalPaid).totInt,
          (projLoop apr pi em fuel (date.map (fun z => addMonthsClamp z 1))
            (projRowOf apr pi em date bal tp ti tpr).balance
            (projRowOf apr pi em date bal tp ti tpr).paid
            (projRowOf apr pi em date bal tp ti tpr).interestPaid
            (projRowOf apr pi em date bal tp ti tpr).principalPaid).totPrin⟩) := rfl

theorem projLoop_head (apr pi : ℚ) (em : ExtrasMap) (fuel : ℕ) (date : Option ℤ)
    (bal tp ti tpr : ℚ) :
    (projLoop apr pi em (fuel + 1) date bal tp ti tpr).rows.head? =
      some (projRowOf apr pi em date bal tp ti tpr) := by
  rw [projLoop_succ]
  by_cases h : (projRowOf apr pi em date bal tp ti tpr).balance ≤ EPS
  · rw [if_pos h]
    rfl
  · rw [if_neg h]
    rfl

theorem projRowOf_balance (apr pi : ℚ) (em : ExtrasMap) (date : Option ℤ)
    (bal tp ti tpr : ℚ) :
    (projRowOf apr pi em date bal tp ti tpr).balance =
      round2 (max 0 (bal - min bal (max 0 (round2 (pi - round2 (bal * apr / 12)))) -
        min (max 0 (bal - min bal (max 0 (round2 (pi - round2 (bal * apr / 12))))))
          ((mapGet em date).getD 0))) := rfl

theorem projRowOf_principal (apr pi : ℚ) (em : ExtrasMap) (date : Option ℤ)
    (bal tp ti tpr : ℚ) :
    (projRowOf apr pi em date bal tp ti tpr).principal =
      round2 (min bal (max 0 (round2 (pi - round2 (bal * apr / 12)))) +
        min (max 0 (bal - min bal (max 0 (round2 (pi - round2 (bal * apr / 12))))))
          ((mapGet em date).getD 0)) := rfl

theorem projLoop_bal_cents (apr pi : ℚ) (em : ExtrasMap) :
    ∀ (fuel : ℕ) (date : Option ℤ) (bal tp ti tpr : ℚ), IsCents bal → 0 ≤ bal →
      IsCents (projLoop apr pi em fuel date bal tp ti tpr).bal ∧
        0 ≤ (projLoop apr pi em fuel date bal tp ti tpr).bal := by
  intro fuel
  induction fuel with
  | zero => intro date bal tp ti tpr hc h0; exact ⟨hc, h0⟩
  | succ f ih =>
    intro date bal tp ti tpr hc h0
    rw [projLoop_succ]
    by_cases h : (projRowOf apr pi em date bal tp ti tpr).balance ≤ EPS
    · rw [if_pos h]
      exact ⟨round2_isCents _, round2_nonneg (le_max_left _ _)⟩
    · rw [if_neg h]
      exact ih _ _ _ _ _ (round2_isCents _) (round2_nonneg (le_max_left _ _))

theorem projLoop_len_of_no_payoff (apr pi : ℚ) (em : ExtrasMap) :
    ∀ (fuel : ℕ) (date : Option ℤ) (bal tp ti tpr : ℚ),
      EPS < (projLoop apr pi em fuel date bal tp ti tpr).bal →
      (projLoop apr pi em fuel date bal tp ti tpr).rows.length = fuel := by
  intro fuel
  induction fuel with
  | zero => intro date bal tp ti tpr _; rfl
  | succ f ih =>
    intro date bal tp ti tpr hbal
    rw [projLoop_succ] at hbal ⊢
    by_cases h : (projRowOf apr pi em date bal tp ti tpr).balance ≤ EPS
    · rw [if_pos h] at hbal
      exact absurd hbal (not_lt.mpr h)
    · rw [if_neg h] at hbal ⊢
      simp only [List.length_cons]
      rw [ih _ _ _ _ _ hbal]

/-- The non-early-return representation of `projectWithExtras`. -/
theorem projectWithExtras_pos (loan : Loan) (bal : ℚ) (nd : Option (Option ℤ))
    (extras : List ExtraRule) (done : ℤ) (h0 : ¬ round2 bal ≤ 0) :
    projectWithExtras loan bal nd extras done =
      { timeline := (projLoop loan.APR (fixedPIForLoan loan)
          (expandExtrasMap extras (projStart loan nd done) 100) (projCap loan done)
          (projStart loan nd done) (round2 bal) 0 0 0).rows
        payoffDate := ((projLoop loan.APR (fixedPIForLoan loan)
          (expandExtrasMap extras (projStart loan nd done) 100) (projCap loan done)
          (projStart loan nd done) (round2 bal) 0 0 0).rows.getLast?).map (·.date)
        totalPaid := (projLoop loan.APR (fixedPIForLoan loan)
          (expandExtrasMap extras (projStart loan nd done) 100) (projCap loan done)
          (projStart loan nd done) (round2 bal) 0 0 0).totPaid
        totalInterest := (projLoop loan.APR (fixedPIForLoan loan)
          (expandExtrasMap extras (projStart loan nd done) 100) (projCap loan done)
          (projStart loan nd done) (round2 bal) 0 0 0).totInt
        totalPrincipal := (projLoop loan.APR (fixedPIForLoan loan)
          (expandExtrasMap extras (projStart loan nd done) 100) (projCap loan done)
          (projStart loan nd done) (round2 bal) 0 0 0).totPrin
        balanceEnd := (projLoop loan.APR (fixedPIForLoan loan)
          (expandExtrasMap extras (projStart loan nd done) 100) (projCap loan done)
          (projStart loan nd done) (round2 bal) 0 0 0).bal } := by
  unfold projectWithExtras
  rw [if_neg h0]

theorem projCap_ge (loan : Loan) (done : ℤ) : 2400 ≤ projCap loan done := by
  unfold projCap
  have h1 : (2400 : ℤ) ≤ max (max 1 (loan.TermMonths - done) + 120) 2400 := le_max_right _ _
  omega

/-- C3 (amended): a projection whose final balance is still positive ran the
full iteration ceiling and is thereby distinguishable from a genuine payoff —
but its `payoffDate` is the last simulated row's date, not `null`. -/
theorem C3_ceiling_distinguishable (loan : Loan) (bal : ℚ) (nd : Option (Option ℤ))
    (extras : List ExtraRule) (done : ℤ)
    (h : 0 < (projectWithExtras loan bal nd extras done).balanceEnd) :
    (projectWithExtras loan bal nd extras done).timeline.length = projCap loan done ∧
    (projectWithExtras loan bal nd extras done).payoffDate ≠ none := by
  by_cases h0 : round2 bal ≤ 0
  · unfold projectWithExtras at h
    rw [if_pos h0] at h
    exact absurd h (lt_irrefl 0)
  · rw [projectWithExtras_pos loan bal nd extras done h0] at h ⊢
    have hcents := projLoop_bal_cents loan.APR (fixedPIForLoan loan)
      (expandExtrasMap extras (projStart loan nd done) 100) (projCap loan done)
      (projStart loan nd done) (round2 bal) 0 0 0 (round2_isCents _)
      (le_of_not_le (fun hle => h0 (by linarith)))
    have hEPS : EPS < (projLoop loan.APR (fixedPIForLoan loan)
        (expandExtrasMap extras (projStart loan nd done) 100) (projCap loan done)
        (projStart loan nd done) (round2 bal) 0 0 0).bal := by
      have := cents_pos hcents.1 h
      unfold EPS
      linarith
    have hlen := projLoop_len_of_no_payoff loan.APR (fixedPIForLoan loan)
      (expandExtrasMap extras (projStart loan nd done) 100) (projCap loan done)
      (projStart loan nd done) (round2 bal) 0 0 0 hEPS
    refine ⟨hlen, ?_⟩
    have hne : (projLoop loan.APR (fixedPIForLoan loan)
        (expandExtrasMap extras (projStart loan nd done) 100) (projCap loan done)
        (projStart loan nd done) (round2 bal) 0 0 0).rows ≠ [] := by
      intro hnil
      rw [hnil] at hlen
      have := projCap_ge loan done
      simp at hlen
      omega
    obtain ⟨x, hx⟩ := Option.isSome_iff_exists.mp (List.getLast?_isSome.mpr hne)
    simp [hx]

/-- Numeric facts of the runaway fixture: one period of interest on balance
100 at 12 % APR rounds to 1, and the payment covers none of it. -/
theorem rwRow_balance (date : Option ℤ) (tp ti tpr : ℚ) :
    (projRowOf rwLoan.APR (fixedPIForLoan rwLoan) [] date 100 tp ti tpr).balance = 100 := by
  have hpi : fixedPIForLoan rwLoan = 0 := by with_unfolding_all decide
  have hget : mapGet ([] : ExtrasMap) date = none := rfl
  rw [projRowOf_balance, hpi, hget]
  have h1 : round2 ((100 : ℚ) * rwLoan.APR / 12) = 1 := by with_unfolding_all decide
  rw [h1]
  have h2 : round2 ((0 : ℚ) - 1) = -1 := by with_unfolding_all decide
  rw [h2]
  have h3 : round2 ((100 : ℚ)) = 100 := by with_unfolding_all decide
  have hmin : min (100 : ℚ) (max 0 (-1)) = 0 := by norm_num
  rw [hmin]
  simp only [Option.getD_none]
  have hmin2 : min (max (0 : ℚ) (100 - 0)) 0 = 0 := by norm_num
  rw [hmin2]
  have : max (0 : ℚ) (100 - 0 - 0) = 100 := by norm_num
  rw [this, h3]

/-- On the runaway fixture the projection balance never moves off 100. -/
theorem rwLoop_bal :
    ∀ (fuel : ℕ) (date : Option ℤ) (tp ti tpr : ℚ),
      (projLoop rwLoan.APR (fixedPIForLoan rwLoan) [] fuel date 100 tp ti tpr).bal = 100 := by
  intro fuel
  induction fuel with
  | zero => intro date tp ti tpr; rfl
  | succ f ih =>
    intro date tp ti tpr
    rw [projLoop_succ]
    rw [if_neg (by rw [rwRow_balance]; unfold EPS; norm_num)]
    show (projLoop rwLoan.APR (fixedPIForLoan rwLoan) [] f _
      (projRowOf rwLoan.APR (fixedPIForLoan rwLoan) [] date 100 tp ti tpr).balance _ _ _).bal = 100
    rw [rwRow_balance]
    exact ih _ _ _ _

theorem rw_balanceEnd : (projectWithExtras rwLoan 100 none [] 0).balanceEnd = 100 := by
  have h0 : ¬ round2 (100 : ℚ) ≤ 0 := by
    rw [round2_cents_fix ⟨10000, by norm_num⟩]
    norm_num
  rw [projectWithExtras_pos rwLoan 100 none [] 0 h0]
  show (projLoop rwLoan.APR (fixedPIForLoan rwLoan)
    (expandExtrasMap [] (projStart rwLoan none 0) 100) (projCap rwLoan 0)
    (projStart rwLoan none 0) (round2 100) 0 0 0).bal = 100
  have hmap : expandExtrasMap [] (projStart rwLoan none 0) 100 = [] := rfl
  have h100 : round2 (100 : ℚ) = 100 := round2_cents_fix ⟨10000, by norm_num⟩
  rw [hmap, h100]
  exact rwLoop_bal _ _ _ _ _

/-- Counterexample to C3 as stated: on the runaway fixture the ceiling is hit
with `balanceEnd = 100 > 0`, yet `payoffDate` is NOT `null` — the projection
reports the last simulated date instead. -/
theorem C3_counterexample :
    (projectWithExtras rwLoan 100 none [] 0).balanceEnd = 100 ∧
    (projectWithExtras rwLoan 100 none [] 0).payoffDate ≠ none := by
  refine ⟨rw_balanceEnd, ?_⟩
  have h0 : ¬ round2 (100 : ℚ) ≤ 0 := by
    rw [round2_cents_fix ⟨10000, by norm_num⟩]
    norm_num
  have hEPS : EPS < (projLoop rwLoan.APR (fixedPIForLoan rwLoan)
      (expandExtrasMap [] (projStart rwLoan none 0) 100) (projCap rwLoan 0)
      (projStart rwLoan none 0) (round2 100) 0 0 0).bal := by
    have hmap : expandExtrasMap [] (projStart rwLoan none 0) 100 = [] := rfl
    have h100 : round2 (100 : ℚ) = 100 := round2_cents_fix ⟨10000, by norm_num⟩
    rw [hmap, h100, rwLoop_bal]
    unfold EPS
    norm_num
  have hlen := projLoop_len_of_no_payoff rwLoan.APR (fixedPIForLoan rwLoan)
    (expandExtrasMap [] (projStart rwLoan none 0) 100) (projCap rwLoan 0)
    (projStart rwLoan none 0) (round2 100) 0 0 0 hEPS
  rw [projectWithExtras_pos rwLoan 100 none [] 0 h0]
  have hne : (projLoop rwLoan.APR (fixedPIForLoan rwLoan)
      (expandExtrasMap [] (projStart rwLoan none 0) 100) (projCap rwLoan 0)
      (projStart rwLoan none 0) (round2 100) 0 0 0).rows ≠ [] := by
    intro hnil
    rw [hnil] at hlen
    have := projCap_ge rwLoan 0
    simp at hlen
    omega
  obtain ⟨x, hx⟩ := Option.isSome_iff_exists.mp (List.getLast?_isSome.mpr hne)
  simp [hx]

/-- Witness for C3 at the runaway fixture. -/
theorem C3_ceiling_distinguishable_witness :
    (projectWithExtras rwLoan 100 none [] 0).timeline.length = projCap rwLoan 0 ∧
    (projectWithExtras rwLoan 100 none [] 0).payoffDate ≠ none :=
  C3_ceiling_distinguishable rwLoan 100 none [] 0 (by rw [rw_balanceEnd]; norm_num)

/-! ### The extras map: lookup/update laws and value invariants -/

theorem mapGet_cons (e : Option ℤ × ℚ) (es : List (Option ℤ × ℚ)) (d : Option ℤ) :
    mapGet (e :: es) d = if e.1 = d then some e.2 else mapGet es d := by
  by_cases h : e.1 = d
  · rw [if_pos h]
    unfold mapGet
    rw [List.find?_cons_of_pos es (by simp [h])]
    rfl
  · rw [if_neg h]
    unfold mapGet
    rw [List.find?_cons_of_neg es (by simp [h])]

theorem mapGet_mapSet (m : ExtrasMap) (k : Option ℤ) (v : ℚ) (d : Option ℤ) :
    mapGet (mapSet m k v) d = if d = k then some v else mapGet m d := by
  induction m with
  | nil =>
    show mapGet [(k, v)] d = if d = k then some v else mapGet [] d
    rw [mapGet_cons]
    by_cases h : d = k
    · rw [if_pos (show (k, v).1 = d from h.symm), if_pos h]
    · rw [if_neg (show ¬ (k, v).1 = d from fun hh => h hh.symm), if_neg h]
  | cons e es ih =>
    show mapGet (if (e.1 == k) = true then (k, v) :: es else e :: mapSet es k v) d =
      if d = k then some v else mapGet (e :: es) d
    by_cases hek : e.1 = k
    · rw [if_pos (show (e.1 == k) = true by simp [hek])]
      rw [mapGet_cons, mapGet_cons]
      by_cases h : d = k
      · rw [if_pos (show (k, v).1 = d from h.symm), if_pos h]
      · rw [if_neg (show ¬ (k, v).1 = d from fun hh => h hh.symm), if_neg h,
          if_neg (show ¬ e.1 = d from fun hh => h (hek.symm.trans hh).symm)]
  -- fallthrough below handles hek false
    · rw [if_neg (show ¬ (e.1 == k) = true by simp [hek])]
      rw [mapGet_cons, mapGet_cons]
      by_cases hed : e.1 = d
      · have hdk : ¬ d = k := fun hh => hek (hed.trans hh)
        rw [if_pos hed, if_neg hdk, if_pos hed]
      · rw [if_neg hed, ih]
        by_cases h : d = k
        · rw [if_pos h, if_pos h]
        · rw [if_neg h, if_neg h, if_neg hed]

theorem good_mapSet {m : ExtrasMap} {k : Option ℤ} {v : ℚ}
    (hm : ∀ d, 0 ≤ (mapGet m d).getD 0 ∧ IsCents ((mapGet m d).getD 0))
    (hv : 0 ≤ v) (hvc : IsCents v) :
    ∀ d, 0 ≤ (mapGet (mapSet m k v) d).getD 0 ∧
      IsCents ((mapGet (mapSet m k v) d).getD 0) := by
  intro d
  rw [mapGet_mapSet]
  by_cases h : d = k
  · rw [if_pos h]
    exact ⟨hv, hvc⟩
  · rw [if_neg h]
    exact hm d

/-- `expandOnce` either leaves the map alone or bumps a single key. -/
theorem expandOnce_cases (startDate endD : Option ℤ) (amount : ℚ)
    (dateField : Option (Option ℤ)) (m : ExtrasMap) :
    expandOnce startDate endD amount dateField m = m ∨
    ∃ a, expandOnce startDate endD amount dateField m =
      mapSet m a (round2 ((mapGet m a).getD 0 + round2 amount)) := by
  cases dateField with
  | none =>
    cases startDate with
    | none => exact Or.inl rfl
    | some sd =>
      by_cases hgd : (dGe (some (addMonthsClamp sd (max 0 (monthsBetween sd sd)))) (some sd) &&
          dLeOpt (some (addMonthsClamp sd (max 0 (monthsBetween sd sd)))) endD) = true
      · exact Or.inr ⟨_, if_pos hgd⟩
      · exact Or.inl (if_neg hgd)
  | some dd =>
    cases dd with
    | none => exact Or.inl rfl
    | some pd =>
      cases startDate with
      | none =>
        by_cases hgd : (dGe none none && dLeOpt none endD) = true
        · exact Or.inr ⟨none, if_pos hgd⟩
        · refine Or.inl ?_
          show (if (dGe none none && dLeOpt none endD) = true then
              mapSet m none (round2 ((mapGet m none).getD 0 + round2 amount))
            else m) = m
          exact if_neg hgd
      | some sd =>
        by_cases hgd : (dGe (some (addMonthsClamp sd (max 0 (monthsBetween sd pd)))) (some sd) &&
            dLeOpt (some (addMonthsClamp sd (max 0 (monthsBetween sd pd)))) endD) = true
        · exact Or.inr ⟨_, if_pos hgd⟩
        · exact Or.inl (if_neg hgd)

theorem expandOnce_good {startDate endD : Option ℤ} {amount : ℚ}
    {dateField : Option (Option ℤ)} {m : ExtrasMap}
    (hm : ∀ d, 0 ≤ (mapGet m d).getD 0 ∧ IsCents ((mapGet m d).getD 0))
    (ha : 0 ≤ amount) :
    ∀ d, 0 ≤ (mapGet (expandOnce startDate endD amount dateField m) d).getD 0 ∧
      IsCents ((mapGet (expandOnce startDate endD amount dateField m) d).getD 0) := by
  rcases expandOnce_cases startDate endD amount dateField m with h | ⟨a, h⟩
  · rw [h]
    exact hm
  · rw [h]
    exact good_mapSet hm
      (round2_nonneg (add_nonneg (hm a).1 (round2_nonneg ha)))
      (round2_isCents _)

theorem expandRecLoop_good {endD : Option ℤ} {amount : ℚ} {ev : Every}
    (ha : 0 ≤ amount) :
    ∀ (fuel : ℕ) (whenD : Option ℤ) (m : ExtrasMap),
      (∀ d, 0 ≤ (mapGet m d).getD 0 ∧ IsCents ((mapGet m d).getD 0)) →
      ∀ d, 0 ≤ (mapGet (expandRecLoop endD amount ev fuel whenD m) d).getD 0 ∧
        IsCents ((mapGet (expandRecLoop endD amount ev fuel whenD m) d).getD 0) := by
  intro fuel
  induction fuel with
  | zero => intro whenD m hm; exact hm
  | succ f ih =>
    intro whenD m hm d
    unfold expandRecLoop
    by_cases hgt : dGtOpt whenD endD = true
    · rw [if_pos hgt]
      exact hm d
    · rw [if_neg hgt]
      exact ih _ _ (good_mapSet hm
        (round2_nonneg (add_nonneg (hm whenD).1 (round2_nonneg ha)))
        (round2_isCents _)) d

theorem expandRule_good {startDate endD : Option ℤ} {my : ℕ} {m : ExtrasMap}
    (hm : ∀ d, 0 ≤ (mapGet m d).getD 0 ∧ IsCents ((mapGet m d).getD 0))
    (r : ExtraRule) :
    ∀ d, 0 ≤ (mapGet (expandRule startDate endD my m r) d).getD 0 ∧
      IsCents ((mapGet (expandRule startDate endD my m r) d).getD 0) := by
  unfold expandRule
  by_cases h0 : ¬ (0 < r.amount)
  · rw [if_pos h0]
    exact hm
  · rw [if_neg h0]
    push_neg at h0
    by_cases h1 : r.once = true
    · rw [if_pos h1]
      exact expandOnce_good hm (le_of_lt h0)
    · rw [if_neg h1]
      exact expandRecLoop_good (le_of_lt h0) _ _ _ hm

theorem foldl_expandRule_good (startDate endD : Option ℤ) (my : ℕ) :
    ∀ (l : List ExtraRule) (m : ExtrasMap),
      (∀ d, 0 ≤ (mapGet m d).getD 0 ∧ IsCents ((mapGet m d).getD 0)) →
      ∀ d, 0 ≤ (mapGet (l.foldl (expandRule startDate endD my) m) d).getD 0 ∧
        IsCents ((mapGet (l.foldl (expandRule startDate endD my) m) d).getD 0) := by
  intro l
  induction l with
  | nil => intro m hm; exact hm
  | cons r rs ih =>
    intro m hm
    exact ih _ (expandRule_good hm r)

/-- Every value the expanded extras map can hold is a nonnegative whole-cent
amount. -/
theorem expandExtrasMap_good (extras : List ExtraRule) (startDate : Option ℤ)
    (my : ℕ) :
    ∀ d, 0 ≤ (mapGet (expandExtrasMap extras startDate my) d).getD 0 ∧
      IsCents ((mapGet (expandExtrasMap extras startDate my) d).getD 0) := by
  unfold expandExtrasMap
  exact foldl_expandRule_good _ _ _ extras []
    (fun d => ⟨le_refl 0, isCents_zero⟩)

/-! ### C7: extra principal never lengthens the what-if timeline -/

theorem sub_min_eq_max (a b : ℚ) : a - min a b = max 0 (a - b) := by
  rcases le_total a b with h | h
  · rw [min_eq_left h, sub_self, max_eq_left (by linarith)]
  · rw [min_eq_right h, max_eq_right (by linarith)]

/-- One projected period under a (nonnegative) extras map never leaves a
higher balance than the same period from a no-less balance with no extras. -/
theorem projRow_balance_mono (apr pi : ℚ) (em : ExtrasMap) (date : Option ℤ)
    (hapr : 0 ≤ apr) (he : 0 ≤ (mapGet em date).getD 0) {bal1 bal2 : ℚ}
    (h : bal1 ≤ bal2) (tp1 ti1 tpr1 tp2 ti2 tpr2 : ℚ) :
    (projRowOf apr pi em date bal1 tp1 ti1 tpr1).balance ≤
      (projRowOf apr pi [] date bal2 tp2 ti2 tpr2).balance := by
  rw [projRowOf_balance, projRowOf_balance]
  have hget : (mapGet ([] : ExtrasMap) date).getD 0 = 0 := rfl
  rw [hget]
  have hi : round2 (bal1 * apr / 12) ≤ round2 (bal2 * apr / 12) :=
    round2_mono (div_le_div_of_nonneg_right
      (mul_le_mul_of_nonneg_right h hapr) (by norm_num))
  have hq : max 0 (round2 (pi - round2 (bal2 * apr / 12))) ≤
      max 0 (round2 (pi - round2 (bal1 * apr / 12))) :=
    max_le_max le_rfl (round2_mono (by linarith))
  have hm12 : bal1 - min bal1 (max 0 (round2 (pi - round2 (bal1 * apr / 12)))) ≤
      bal2 - min bal2 (max 0 (round2 (pi - round2 (bal2 * apr / 12)))) := by
    rw [sub_min_eq_max, sub_min_eq_max]
    exact max_le_max le_rfl (by linarith)
  have he1 : 0 ≤ min
      (max 0 (bal1 - min bal1 (max 0 (round2 (pi - round2 (bal1 * apr / 12))))))
      ((mapGet em date).getD 0) :=
    le_min (le_max_left _ _) he
  have hz : min
      (max 0 (bal2 - min bal2 (max 0 (round2 (pi - round2 (bal2 * apr / 12))))))
      (0 : ℚ) = 0 :=
    min_eq_right (le_max_left _ _)
  apply round2_mono
  apply max_le_max le_rfl
  rw [hz]
  linarith

/-- The row list of one more loop iteration, as a small conditional. -/
theorem projLoop_rows_succ (apr pi : ℚ) (em : ExtrasMap) (fuel : ℕ)
    (date : Option ℤ) (bal tp ti tpr : ℚ) :
    (projLoop apr pi em (fuel + 1) date bal tp ti tpr).rows =
      (if (projRowOf apr pi em date bal tp ti tpr).balance ≤ EPS then
        [projRowOf apr pi em date bal tp ti tpr]
      else projRowOf apr pi em date bal tp ti tpr ::
        (projLoop apr pi em fuel (date.map (fun z => addMonthsClamp z 1))
          (projRowOf apr pi em date bal tp ti tpr).balance
          (projRowOf apr pi em date bal tp ti tpr).paid
          (projRowOf apr pi em date bal tp ti tpr).interestPaid
          (projRowOf apr pi em date bal tp ti tpr).principalPaid).rows) := by
  rw [projLoop_succ]
  by_cases h : (projRowOf apr pi em date bal tp ti tpr).balance ≤ EPS
  · rw [if_pos h, if_pos h]
  · rw [if_neg h, if_neg h]

/-- The row count of one more loop iteration, as a small conditional. -/
theorem projLoop_length_succ (apr pi : ℚ) (em : ExtrasMap) (fuel : ℕ)
    (date : Option ℤ) (bal tp ti tpr : ℚ) :
    (projLoop apr pi em (fuel + 1) date bal tp ti tpr).rows.length =
      (if (projRowOf apr pi em date bal tp ti tpr).balance ≤ EPS then 1
      else (projLoop apr pi em fuel (date.map (fun z => addMonthsClamp z 1))
          (projRowOf apr pi em date bal tp ti tpr).balance
          (projRowOf apr pi em date bal tp ti tpr).paid
          (projRowOf apr pi em date bal tp ti tpr).interestPaid
          (projRowOf apr pi em date bal tp ti tpr).principalPaid).rows.length + 1) := by
  rw [projLoop_rows_succ]
  by_cases h : (projRowOf apr pi em date bal tp ti tpr).balance ≤ EPS
  · rw [if_pos h, if_pos h]
    rfl
  · rw [if_neg h, if_neg h]
    rfl

/-- Pointwise domination: with a nonnegative extras map and a no-greater
starting balance, the projection loop never emits more rows than the
extras-free loop. -/
theorem projLoop_len_le (apr pi : ℚ) (em : ExtrasMap) (hapr : 0 ≤ apr)
    (he : ∀ d, 0 ≤ (mapGet em d).getD 0) :
    ∀ (fuel : ℕ) (date : Option ℤ) (bal1 bal2 tp1 ti1 tpr1 tp2 ti2 tpr2 : ℚ),
      bal1 ≤ bal2 →
      (projLoop apr pi em fuel date bal1 tp1 ti1 tpr1).rows.length ≤
        (projLoop apr pi [] fuel date bal2 tp2 ti2 tpr2).rows.length := by
  intro fuel
  induction fuel with
  | zero => intro date bal1 bal2 tp1 ti1 tpr1 tp2 ti2 tpr2 h; exact le_rfl
  | succ f ih =>
    intro date bal1 bal2 tp1 ti1 tpr1 tp2 ti2 tpr2 h
    have hmono := projRow_balance_mono apr pi em date hapr (he date) h
      tp1 ti1 tpr1 tp2 ti2 tpr2
    rw [projLoop_length_succ, projLoop_length_succ]
    by_cases h1 : (projRowOf apr pi em date bal1 tp1 ti1 tpr1).balance ≤ EPS
    · by_cases h2 : (projRowOf apr pi [] date bal2 tp2 ti2 tpr2).balance ≤ EPS
      · rw [if_pos h1, if_pos h2]
      · rw [if_pos h1, if_neg h2]
        omega
    · rw [if_neg h1, if_neg (fun h2 => h1 (le_trans hmono h2))]
      exact Nat.succ_le_succ (ih _ _ _ _ _ _ _ _ _ hmono)

/-- The timeline of a positive-balance projection is the loop's row list. -/
theorem projectWithExtras_timeline (loan : Loan) (bal : ℚ) (nd : Option (Option ℤ))
    (extras : List ExtraRule) (done : ℤ) (h0 : ¬ round2 bal ≤ 0) :
    (projectWithExtras loan bal nd extras done).timeline =
      (projLoop loan.APR (fixedPIForLoan loan)
        (expandExtrasMap extras (projStart loan nd done) 100) (projCap loan done)
        (projStart loan nd done) (round2 bal) 0 0 0).rows := by
  rw [projectWithExtras_pos loan bal nd extras done h0]

/-- C7 (confirmed for APR ≥ 0, which the data model guarantees): adding
extra-principal rules never produces a longer what-if timeline than running
the projection with no extras at all. -/
theorem C7_extras_never_lengthen (loan : Loan) (bal : ℚ) (nd : Option (Option ℤ))
    (extras : List ExtraRule) (done : ℤ) (hapr : 0 ≤ loan.APR) :
    (projectWithExtras loan bal nd extras done).timeline.length ≤
      (projectWithExtras loan bal nd [] done).timeline.length := by
  by_cases h0 : round2 bal ≤ 0
  · unfold projectWithExtras
    rw [if_pos h0, if_pos h0]
  · rw [projectWithExtras_timeline loan bal nd extras done h0,
      projectWithExtras_timeline loan bal nd [] done h0]
    have hmap : expandExtrasMap [] (projStart loan nd done) 100 = [] := rfl
    rw [hmap]
    exact projLoop_len_le loan.APR (fixedPIForLoan loan)
      (expandExtrasMap extras (projStart loan nd done) 100) hapr
      (fun d => (expandExtrasMap_good extras (projStart loan nd done) 100 d).1)
      (projCap loan done) (projStart loan nd done) (round2 bal) (round2 bal)
      0 0 0 0 0 0 le_rfl

/-- Witness for C7: the standard mortgage fixture with a one-off 100 extra. -/
theorem C7_extras_never_lengthen_witness :
    0 ≤ gLoan.APR ∧
    (projectWithExtras gLoan 1000 none
        [{ once := true, amount := 100, date := some (some (daysFromCivil 2024 3 15)) }]
        0).timeline.length ≤
      (projectWithExtras gLoan 1000 none [] 0).timeline.length :=
  ⟨by with_unfolding_all decide,
    C7_extras_never_lengthen gLoan 1000 none
      [{ once := true, amount := 100, date := some (some (daysFromCivil 2024 3 15)) }]
      0 (by with_unfolding_all decide)⟩

/-! ### C5: row-to-row balance monotonicity -/

/-- One projected period from a whole-cent balance above the payoff epsilon
never raises the balance, and strictly lowers it whenever the emitted row
shows positive principal. -/
theorem projRow_decreasing (apr pi : ℚ) (em : ExtrasMap) (date : Option ℤ)
    (hg : 0 ≤ (mapGet em date).getD 0 ∧ IsCents ((mapGet em date).getD 0))
    {bal : ℚ} (hc : IsCents bal) (hE : EPS < bal) (tp ti tpr : ℚ) :
    (projRowOf apr pi em date bal tp ti tpr).balance ≤ bal ∧
      (0 < (projRowOf apr pi em date bal tp ti tpr).principal →
        (projRowOf apr pi em date bal tp ti tpr).balance < bal) := by
  rw [projRowOf_balance, projRowOf_principal]
  set e := (mapGet em date).getD 0 with hedef
  set q := max 0 (round2 (pi - round2 (bal * apr / 12))) with hqdef
  set p := min bal q with hpdef
  set x := min (max 0 (bal - p)) e with hxdef
  have hbal0 : 0 < bal := lt_trans (by unfold EPS; norm_num) hE
  have hp0 : 0 ≤ p := le_min (le_of_lt hbal0) (le_max_left _ _)
  have hx0 : 0 ≤ x := le_min (le_max_left _ _) hg.1
  have hple : p ≤ bal := min_le_left _ _
  have hqc : IsCents q := isCents_max isCents_zero (round2_isCents _)
  have hpc : IsCents p := isCents_min hc hqc
  have hxc : IsCents x :=
    isCents_min (isCents_max isCents_zero (isCents_sub hc hpc)) hg.2
  constructor
  · calc round2 (max 0 (bal - p - x)) ≤ round2 bal :=
        round2_mono (max_le (le_of_lt hbal0) (by linarith))
      _ = bal := round2_cents_fix hc
  · intro hpr
    have hsum : IsCents (p + x) := isCents_add hpc hxc
    rw [round2_cents_fix hsum] at hpr
    have h100 : 1 / 100 ≤ p + x := cents_pos hsum hpr
    rcases le_or_lt 0 (bal - p - x) with hge | hlt
    · rw [max_eq_right hge, round2_cents_fix (isCents_sub (isCents_sub hc hpc) hxc)]
      linarith
    · rw [max_eq_left (le_of_lt hlt), round2_cents_fix isCents_zero]
      exact hbal0

/-- The rows of the projection loop form a weakly-decreasing balance chain,
strictly decreasing at every row with positive principal. -/
theorem projLoop_chain (apr pi : ℚ) (em : ExtrasMap)
    (hg : ∀ d, 0 ≤ (mapGet em d).getD 0 ∧ IsCents ((mapGet em d).getD 0)) :
    ∀ (fuel : ℕ) (date : Option ℤ) (bal tp ti tpr : ℚ),
      List.Chain' (fun r1 r2 : ProjRow =>
          r2.balance ≤ r1.balance ∧ (0 < r2.principal → r2.balance < r1.balance))
        (projLoop apr pi em fuel date bal tp ti tpr).rows := by
  intro fuel
  induction fuel with
  | zero => intro date bal tp ti tpr; exact List.chain'_nil
  | succ f ih =>
    intro date bal tp ti tpr
    rw [projLoop_rows_succ]
    by_cases h : (projRowOf apr pi em date bal tp ti tpr).balance ≤ EPS
    · rw [if_pos h]
      exact List.chain'_singleton _
    · rw [if_neg h]
      rw [List.chain'_cons']
      refine ⟨?_, ih _ _ _ _ _⟩
      intro y hy
      cases f with
      | zero => simp [projLoop] at hy
      | succ f2 =>
        rw [projLoop_head] at hy
        simp only [Option.mem_def, Option.some.injEq] at hy
        subst hy
        exact projRow_decreasing apr pi em _ (hg _) (round2_isCents _)
          (lt_of_not_le h) _ _ _

/-- C5 (amended): in the period-level `projectWithExtras` timeline the
recorded balance is non-increasing row to row and strictly decreases at every
row with positive principal — with no hypotheses at all. The event-level
`projectToPayoff` half of the claim is refuted by `C5_counterexample`. -/
theorem C5_balance_monotone (loan : Loan) (bal : ℚ) (nd : Option (Option ℤ))
    (extras : List ExtraRule) (done : ℤ) :
    List.Chain' (fun r1 r2 : ProjRow =>
        r2.balance ≤ r1.balance ∧ (0 < r2.principal → r2.balance < r1.balance))
      (projectWithExtras loan bal nd extras done).timeline := by
  by_cases h0 : round2 bal ≤ 0
  · unfold projectWithExtras
    rw [if_pos h0]
    exact List.chain'_nil
  · rw [projectWithExtras_timeline loan bal nd extras done h0]
    exact projLoop_chain loan.APR (fixedPIForLoan loan)
      (expandExtrasMap extras (projStart loan nd done) 100)
      (expandExtrasMap_good extras (projStart loan nd done) 100)
      (projCap loan done) (projStart loan nd done) (round2 bal) 0 0 0

/-- The concrete event stream of the credit-card counterexample fixture: two
base payment events, no draws. -/
theorem ccEvents : ptEvents ccLoan (daysFromCivil 2024 1 15) [] [] 100 =
    [⟨.base, daysFromCivil 2024 2 15, 0⟩, ⟨.base, daysFromCivil 2024 3 15, 0⟩] := by
  with_unfolding_all rfl

/-- Counterexample to C5 as stated: the event-level `projectToPayoff` on a
high-APR credit card, with NO draw events, records a row-to-row RISING
balance (10254.79 → 10499.22): the capped minimum payment does not cover the
accrued interest, which is capitalized into the balance. -/
theorem C5_counterexample :
    ((projectToPayoff ccLoan 10000 (daysFromCivil 2024 1 15) [] []).timeline.map
        (fun r => r.balance)).head? = some (1025479 / 100) ∧
    ((projectToPayoff ccLoan 10000 (daysFromCivil 2024 1 15) [] []).timeline.map
        (fun r => r.balance)).getLast? = some (1049922 / 100) ∧
    (projectToPayoff ccLoan 10000 (daysFromCivil 2024 1 15) [] []).timeline.length = 2 ∧
    ((1025479 : ℚ) / 100 < 1049922 / 100) := by
  refine ⟨?_, ?_, ?_, by norm_num⟩
  · show ((ptAssemble ccLoan (isAmortizedType ccLoan.LoanType)
        (ptFixedBasePI ccLoan 10000 (daysFromCivil 2024 1 15))
        (round2 ((ccLoan.EscrowMonthly * 12) / periodsPerYear ccLoan.PaymentFrequency))
        (ptEvents ccLoan (daysFromCivil 2024 1 15) [] [] 100)
        (daysFromCivil 2024 1 15) 10000).timeline.map (fun r => r.balance)).head? =
      some (1025479 / 100)
    rw [ccEvents]
    with_unfolding_all rfl
  · show ((ptAssemble ccLoan (isAmortizedType ccLoan.LoanType)
        (ptFixedBasePI ccLoan 10000 (daysFromCivil 2024 1 15))
        (round2 ((ccLoan.EscrowMonthly * 12) / periodsPerYear ccLoan.PaymentFrequency))
        (ptEvents ccLoan (daysFromCivil 2024 1 15) [] [] 100)
        (daysFromCivil 2024 1 15) 10000).timeline.map (fun r => r.balance)).getLast? =
      some (1049922 / 100)
    rw [ccEvents]
    with_unfolding_all rfl
  · show (ptAssemble ccLoan (isAmortizedType ccLoan.LoanType)
        (ptFixedBasePI ccLoan 10000 (daysFromCivil 2024 1 15))
        (round2 ((ccLoan.EscrowMonthly * 12) / periodsPerYear ccLoan.PaymentFrequency))
        (ptEvents ccLoan (daysFromCivil 2024 1 15) [] [] 100)
        (daysFromCivil 2024 1 15) 10000).timeline.length = 2
    rw [ccEvents]
    with_unfolding_all rfl

/-! ### C8: where a one-time extra rule lands -/

/-- `expandOnce` on a parseable rule date, spelled out. -/
theorem expandOnce_some (startD : ℤ) (endD : Option ℤ) (amount : ℚ) (d : ℤ)
    (m : ExtrasMap) :
    expandOnce (some startD) endD amount (some (some d)) m =
      (if (dGe (some (addMonthsClamp startD (max 0 (monthsBetween startD d))))
            (some startD) &&
          dLeOpt (some (addMonthsClamp startD (max 0 (monthsBetween startD d))))
            endD) = true then
        mapSet m (some (addMonthsClamp startD (max 0 (monthsBetween startD d))))
          (round2 ((mapGet m
            (some (addMonthsClamp startD (max 0 (monthsBetween startD d))))).getD 0
              + round2 amount))
      else m) := rfl

/-- A once-rule record reduces `expandRule` to `expandOnce`. -/
theorem expandRule_once (startD endD : Option ℤ) (my : ℕ) (m : ExtrasMap)
    (amount : ℚ) (dt : Option (Option ℤ)) :
    expandRule startD endD my m { once := true, amount := amount, date := dt } =
      (if ¬ (0 < amount) then m else expandOnce startD endD amount dt m) := rfl

/-- C8 (amended): a positive once-rule whose month-grid-aligned date passes
the window guard posts `round2 amount` exactly on the aligned anchor date
`addMonthsClamp start (max 0 (monthsBetween start d))` — a billing boundary,
but (because `monthsBetween` ignores days-of-month) possibly EARLIER than the
rule's own date `d`; see `C8_counterexample`. -/
theorem C8_once_alignment (startD d : ℤ) (amount : ℚ) (my : ℕ) (ha : 0 < amount)
    (hg : (dGe (some (addMonthsClamp startD (max 0 (monthsBetween startD d))))
          (some startD) &&
        dLeOpt (some (addMonthsClamp startD (max 0 (monthsBetween startD d))))
          ((some startD).map (fun z => addYears z (my : ℤ)))) = true) :
    expandExtrasMap [{ once := true, amount := amount, date := some (some d) }]
        (some startD) my =
      [(some (addMonthsClamp startD (max 0 (monthsBetween startD d))),
        round2 amount)] := by
  have h1 : expandExtrasMap [{ once := true, amount := amount, date := some (some d) }]
      (some startD) my =
      expandRule (some startD) ((some startD).map (fun z => addYears z (my : ℤ))) my
        [] { once := true, amount := amount, date := some (some d) } := rfl
  rw [h1, expandRule_once, if_neg (not_not_intro ha), expandOnce_some, if_pos hg]
  have hv : round2 ((mapGet ([] : ExtrasMap)
      (some (addMonthsClamp startD (max 0 (monthsBetween startD d))))).getD 0
        + round2 amount) = round2 amount := by
    show round2 ((0 : ℚ) + round2 amount) = round2 amount
    rw [zero_add]
    exact round2_cents_fix (round2_isCents _)
  rw [hv]
  rfl

/-- Witness for C8: anchor 2024-01-15, rule date 2024-03-20, amount 100. -/
theorem C8_once_alignment_witness :
    (0 : ℚ) < 100 ∧
    (dGe (some (addMonthsClamp (daysFromCivil 2024 1 15)
          (max 0 (monthsBetween (daysFromCivil 2024 1 15) (daysFromCivil 2024 3 20)))))
        (some (daysFromCivil 2024 1 15)) &&
      dLeOpt (some (addMonthsClamp (daysFromCivil 2024 1 15)
          (max 0 (monthsBetween (daysFromCivil 2024 1 15) (daysFromCivil 2024 3 20)))))
        ((some (daysFromCivil 2024 1 15)).map (fun z => addYears z (100 : ℤ)))) = true ∧
    expandExtrasMap
      [{ once := true, amount := 100, date := some (some (daysFromCivil 2024 3 20)) }]
      (some (daysFromCivil 2024 1 15)) 100 =
      [(some (addMonthsClamp (daysFromCivil 2024 1 15)
          (max 0 (monthsBetween (daysFromCivil 2024 1 15) (daysFromCivil 2024 3 20)))),
        round2 100)] :=
  ⟨by norm_num, by with_unfolding_all decide,
    C8_once_alignment (daysFromCivil 2024 1 15) (daysFromCivil 2024 3 20) 100 100
      (by norm_num) (by with_unfolding_all decide)⟩

/-- Counterexample to C8 as stated: the once-rule dated 2024-03-20 posts
nothing on its own date — the whole amount lands on 2024-03-15, the aligned
month-grid date, which is five days EARLIER than the rule's date. -/
theorem C8_counterexample :
    mapGet (expandExtrasMap
      [{ once := true, amount := 100, date := some (some (daysFromCivil 2024 3 20)) }]
      (some (daysFromCivil 2024 1 15)) 100) (some (daysFromCivil 2024 3 20)) = none ∧
    mapGet (expandExtrasMap
      [{ once := true, amount := 100, date := some (some (daysFromCivil 2024 3 20)) }]
      (some (daysFromCivil 2024 1 15)) 100) (some (daysFromCivil 2024 3 15)) = some 100 ∧
    daysFromCivil 2024 3 15 < daysFromCivil 2024 3 20 :=
  ⟨by with_unfolding_all decide, by with_unfolding_all decide,
    by with_unfolding_all decide⟩

end LoanApp
